import Mathlib

/-!
Shallow embedding of the lead-gen bulk verification engine.

Strings are modelled as lists of characters (`Str`).  Each definition is a
direct translation of a function of the repository:

* `normalizeName`, `applyPattern`, `generate`, `detectPattern` embed
  `EmailPermutator` from `services/enrichment/email_verifier.py`;
* `parseResponse` embeds `MailTesterNinjaVerifier._parse_response`;
* `waitForRateLimit` embeds `MailTesterNinjaVerifier._wait_for_rate_limit`
  (time in integer milliseconds, the sleep made explicit in the returned
  clock value);
* `verifyAux` embeds the retry loop of `MailTesterNinjaVerifier.verify`,
  with the HTTP exchanges abstracted as an oracle from attempt index to
  outcome, and the performed sleeps returned as data;
* `updateStatus`, `repoCancel`, `updateProgress` embed `JobRepository`
  methods from `repositories/job_repo.py`;
* `processLead`, `runLeadsBatch`, `runEmailsBatch` embed the Celery tasks
  `verify_leads_batch` and `verify_emails_batch` from
  `workers/tasks/verification.py`, with the vendor abstracted as an oracle
  from (call index, email) to `VerificationResult` and every database
  commit of the progress counters recorded in a `commits` trace.

Character classification uses Lean's ASCII `Char.isAlpha` / `Char.toLower`;
the repository only handles ASCII identifiers in the modelled paths.
-/

/-- Python strings are modelled as lists of characters. -/
abbrev Str := List Char

/-- `s.lower()`. -/
def lowerStr (s : Str) : Str := s.map Char.toLower

/-- `s.strip()` — drop whitespace from both ends. -/
def stripWs (s : Str) : Str :=
  (s.dropWhile Char.isWhitespace).reverse.dropWhile Char.isWhitespace |>.reverse

/-- `s.removeprefix(p)`. -/
def removePrefix (p s : Str) : Str :=
  if p.isPrefixOf s then s.drop p.length else s

/-- `s.rstrip(c)` for a single character. -/
def rstripChar (c : Char) (s : Str) : Str :=
  (s.reverse.dropWhile (· = c)).reverse

/-- Python list building `if e not in acc: acc.append(e)` /
`set.add` — append when new. -/
def addIfNew {α : Type} [DecidableEq α] (acc : List α) (a : α) : List α :=
  if a ∈ acc then acc else acc ++ [a]

/-- Substring test, `needle in hay` on Python strings. -/
def containsSeq (needle : Str) : Str → Bool
  | [] => needle.isEmpty
  | c :: rest => needle.isPrefixOf (c :: rest) || containsSeq needle rest

/-! ### EmailPermutator -/

/-- The eight entries of `EmailPermutator.COMMON_PATTERNS`, as an
inductive type (the repository only ever stores patterns drawn from this
list: `detect_pattern` returns members of it). -/
inductive Pattern : Type
  | firstDotLast
  | fLast
  | fDotLast
  | firstOnly
  | firstLast
  | firstUnderscoreLast
  | firstL
  | lastDotFirst
deriving DecidableEq, Repr

/-- `COMMON_PATTERNS`, in source order. -/
def COMMON_PATTERNS : List Pattern :=
  [Pattern.firstDotLast, Pattern.fLast, Pattern.fDotLast, Pattern.firstOnly,
   Pattern.firstLast, Pattern.firstUnderscoreLast, Pattern.firstL,
   Pattern.lastDotFirst]

/-- `pattern.format(first=..., last=..., f=..., l=...)` — the local part
produced by a pattern (`first[0] if first else ""` is `take 1`). -/
def applyPattern (p : Pattern) (first last : Str) : Str :=
  match p with
  | Pattern.firstDotLast => first ++ '.' :: last
  | Pattern.fLast => first.take 1 ++ last
  | Pattern.fDotLast => first.take 1 ++ '.' :: last
  | Pattern.firstOnly => first
  | Pattern.firstLast => first ++ last
  | Pattern.firstUnderscoreLast => first ++ '_' :: last
  | Pattern.firstL => first ++ last.take 1
  | Pattern.lastDotFirst => last ++ '.' :: first

/-- `f"{local_part}@{domain}"`. -/
def mkEmail (localPart domain : Str) : Str := localPart ++ '@' :: domain

/-- The suffix-stripping pass of `_normalize_name`: each suffix of the
source list is tested (and removed) in order, on the running value. -/
def stripNameSuffixes (name : Str) : Str :=
  [(" jr").toList, (" sr").toList, (" iii").toList, (" ii").toList,
   (" iv").toList].foldl
    (fun n suf => if suf.isSuffixOf n then n.take (n.length - suf.length) else n)
    name

/-- The character pass of `_normalize_name`: keep letters and hyphens,
map spaces to hyphens, drop everything else. -/
def normalizeChars (name : Str) : Str :=
  name.filterMap (fun c =>
    if c.isAlpha ∨ c = '-' then some c
    else if c = ' ' then some '-'
    else none)

/-- `cleaned.strip("-")`. -/
def stripHyphens (s : Str) : Str :=
  (s.dropWhile (· = '-')).reverse.dropWhile (· = '-') |>.reverse

/-- `EmailPermutator._normalize_name`. -/
def normalizeName (name : Str) : Str :=
  stripHyphens (normalizeChars (stripNameSuffixes name))

/-- The name preparation shared by `generate` and `detect_pattern`:
`_normalize_name(raw.lower().strip())`. -/
def prepName (raw : Str) : Str := normalizeName (stripWs (lowerStr raw))

/-- The `known_patterns` dict of an `EmailPermutator`:
domain → working pattern. -/
def KnownPatterns : Type := Str → Option Pattern

/-- The spliced-in known-pattern candidate of `generate`
(empty when the domain has no recorded pattern). -/
def knownCandidate (kp : KnownPatterns) (first last domain : Str) : List Str :=
  match kp domain with
  | some p => [mkEmail (applyPattern p first last) domain]
  | none => []

/-- The deduplicating pattern loop of `generate`: start from the spliced
known-pattern candidate, append each pattern email not already present. -/
def rawPerms (kp : KnownPatterns) (first last domain : Str) : List Str :=
  (COMMON_PATTERNS.map (fun p => mkEmail (applyPattern p first last) domain)).foldl
    addIfNew (knownCandidate kp first last domain)

/-- `EmailPermutator.generate`. -/
def generate (kp : KnownPatterns) (firstName lastName domain : Str)
    (maxPermutations : Nat) : List Str :=
  if prepName firstName = [] ∨ prepName lastName = [] ∨ domain = [] then []
  else (rawPerms kp (prepName firstName) (prepName lastName) domain).take maxPermutations

/-- `email.split("@")[0]` — the prefix before the first `@`. -/
def localPartOf (email : Str) : Str := email.takeWhile (· ≠ '@')

/-- `EmailPermutator.detect_pattern`: walk `COMMON_PATTERNS`, return the
first whose expansion (on the prepared names) equals the lower-cased
local part of the email. -/
def detectPattern (email firstName lastName : Str) : Option Pattern :=
  COMMON_PATTERNS.find?
    (fun p => applyPattern p (prepName firstName) (prepName lastName) =
      lowerStr (localPartOf email))

/-! ### Response decoding -/

/-- `VerificationStatus`. -/
inductive VStatus : Type
  | valid
  | invalid
  | catchAll
  | unknown
  | pending
deriving DecidableEq, Repr

/-- `VerificationResult`. -/
structure VerificationResult : Type where
  email : Str
  status : VStatus
  is_deliverable : Bool
  is_catch_all : Bool
  is_disposable : Bool
  mx_found : Bool
  reason : Option Str
  is_rate_limited : Bool
deriving DecidableEq, Repr

/-- A result with every optional field at its dataclass default. -/
def baseResult (email : Str) (status : VStatus) : VerificationResult :=
  { email := email, status := status, is_deliverable := false,
    is_catch_all := false, is_disposable := false, mx_found := false,
    reason := none, is_rate_limited := false }

/-- The vendor JSON fields read by `_parse_response`
(`data.get("code") or ""` makes a missing code the empty string). -/
structure NinjaResponse : Type where
  code : Str
  message : Str
  mx : Option Str
deriving DecidableEq, Repr

/-- Python `bool(mx)`: `None` and the empty string are falsy. -/
def mxBool (mx : Option Str) : Bool :=
  match mx with
  | none => false
  | some s => !s.isEmpty

/-- The fallback guard `not mx or mx == "" or mx == "null"`. -/
def mxMissing (mx : Option Str) : Bool :=
  match mx with
  | none => true
  | some s => s.isEmpty || s = ("null").toList

/-- `MailTesterNinjaVerifier._parse_response` (the locals
`code = data.code.lower()`, `message_lower = message.lower()` and `mx`
are inlined). -/
def parseResponse (email : Str) (data : NinjaResponse) : VerificationResult :=
  if lowerStr data.code = ("ok").toList ∧ lowerStr data.message = ("accepted").toList then
    { baseResult email VStatus.valid with
        is_deliverable := true, mx_found := mxBool data.mx }
  else if lowerStr data.code = ("ok").toList ∧ lowerStr data.message = ("limited").toList then
    { baseResult email VStatus.valid with
        is_deliverable := true, mx_found := mxBool data.mx,
        reason := some ("Valid but inbox has rate limits").toList }
  else if lowerStr data.message = ("catch-all").toList then
    { baseResult email VStatus.catchAll with
        is_deliverable := true, is_catch_all := true, mx_found := mxBool data.mx,
        reason := some ("Catch-all domain - email may or may not exist").toList }
  else if lowerStr data.code = ("mb").toList then
    { baseResult email VStatus.catchAll with
        is_deliverable := true, is_catch_all := true, mx_found := mxBool data.mx,
        reason := some ("Unverifiable - server won\x27t confirm mailbox existence").toList }
  else if lowerStr data.code = ("ko").toList ∨ lowerStr data.message = ("rejected").toList then
    { baseResult email VStatus.invalid with
        reason := some ("Email rejected by mail server").toList,
        mx_found := mxBool data.mx }
  else if lowerStr data.message = ("no mx").toList then
    { baseResult email VStatus.invalid with
        reason := some ("No MX records found for domain").toList,
        mx_found := false }
  else if lowerStr data.message = ("mx error").toList then
    { baseResult email VStatus.unknown with
        reason := some ("Could not connect to mail server").toList,
        mx_found := mxBool data.mx }
  else if lowerStr data.message = ("timeout").toList then
    { baseResult email VStatus.unknown with
        reason := some ("Mail server timeout").toList,
        mx_found := mxBool data.mx }
  else if lowerStr data.message = ("spam block").toList then
    { baseResult email VStatus.unknown with
        reason := some ("Verification blocked by spam filter").toList,
        mx_found := mxBool data.mx }
  else if mxMissing data.mx then
    { baseResult email VStatus.invalid with
        reason := some ("No MX records found for domain").toList,
        mx_found := false }
  else if lowerStr data.code = ("ok").toList then
    { baseResult email VStatus.valid with
        is_deliverable := true, mx_found := mxBool data.mx,
        reason := if data.message = [] then none else some data.message }
  else
    { baseResult email VStatus.unknown with
        reason := if data.message = [] then
                    some (("Unknown response: code=").toList ++ lowerStr data.code)
                  else some data.message,
        mx_found := mxBool data.mx }

/-! ### Sliding-window rate limiter -/

/-- `RATE_LIMIT_MAX_REQUESTS`. -/
def RATE_LIMIT_MAX_REQUESTS : Nat := 35

/-- `RATE_LIMIT_WINDOW_MS` (time in integer milliseconds). -/
def RATE_LIMIT_WINDOW_MS : Int := 30 * 1000

/-- The purge `[ts for ts in window if now - ts < WINDOW]`. -/
def purgeWindow (now : Int) (ts : List Int) : List Int :=
  ts.filter (fun t => now - t < RATE_LIMIT_WINDOW_MS)

/-- The full-window branch of `_wait_for_rate_limit`: the wait is
`WINDOW - (now - oldest) + 100`; when positive, sleep (advancing the
clock by it), purge again, and record the request at the new clock. -/
def sleepAndRetry (ts1 : List Int) (now oldest : Int) : List Int × Int :=
  if 0 < RATE_LIMIT_WINDOW_MS - (now - oldest) + 100 then
    (purgeWindow (now + (RATE_LIMIT_WINDOW_MS - (now - oldest) + 100)) ts1 ++
       [now + (RATE_LIMIT_WINDOW_MS - (now - oldest) + 100)],
     now + (RATE_LIMIT_WINDOW_MS - (now - oldest) + 100))
  else (ts1 ++ [now], now)

/-- `MailTesterNinjaVerifier._wait_for_rate_limit`: one call on window
`ts` at clock `now`; returns the stored window after the call together
with the clock at which the request is recorded (later than `now`
exactly when the call slept). -/
def waitForRateLimit (ts : List Int) (now : Int) : List Int × Int :=
  if RATE_LIMIT_MAX_REQUESTS ≤ (purgeWindow now ts).length then
    match purgeWindow now ts with
    | [] => ([now], now)
    | oldest :: rest => sleepAndRetry (oldest :: rest) now oldest
  else (purgeWindow now ts ++ [now], now)

/-! ### The 429 retry loop of `verify` -/

/-- `MAX_RETRIES`. -/
def MAX_RETRIES : Nat := 2

/-- `BASE_RETRY_DELAY_MS`. -/
def BASE_RETRY_DELAY_MS : Nat := 31000

/-- Outcome of one HTTP attempt inside `verify`, as the code branches on
it: a 2xx JSON body, a 429, another error status (which
`raise_for_status` turns into `HTTPStatusError`), a transport timeout,
or any other exception. -/
inductive AttemptOutcome : Type
  | ok (data : NinjaResponse)
  | rateLimited
  | httpError (status : Nat)
  | timeout
  | failure (msg : Str)

/-- The result returned once the 429 retries are exhausted. -/
def rateLimitExhausted (email : Str) : VerificationResult :=
  { baseResult email VStatus.unknown with
      reason := some ("Rate limit exceeded after maximum retries").toList,
      is_rate_limited := true }

/-- The result `verify` builds for a non-429 attempt outcome (the
`rateLimited` case is handled by the loop, never by this table). -/
def resultOfOutcome (email : Str) : AttemptOutcome → VerificationResult
  | AttemptOutcome.ok d => parseResponse email d
  | AttemptOutcome.rateLimited => rateLimitExhausted email
  | AttemptOutcome.httpError s =>
      if s = 401 ∨ s = 403 then
        { baseResult email VStatus.unknown with
            reason := some ("Authentication failed with email validation service").toList }
      else
        { baseResult email VStatus.unknown with
            reason := some (("HTTP error: ").toList ++ (toString s).toList) }
  | AttemptOutcome.timeout =>
      { baseResult email VStatus.invalid with
          reason := some ("Email validation timed out").toList }
  | AttemptOutcome.failure msg =>
      { baseResult email VStatus.unknown with reason := some msg }

/-- The `while retry_count <= MAX_RETRIES` loop of `verify`.  `budget` is
`MAX_RETRIES - retry_count` (remaining allowed retries); `idx` numbers the
HTTP attempts, drawn from the oracle.  Returns the result, the number of
HTTP requests issued, and the list of back-off sleeps (ms) in order. -/
def verifyAux (oracle : Nat → AttemptOutcome) (email : Str) :
    Nat → Nat → VerificationResult × Nat × List Nat
  | budget, idx =>
    match oracle idx with
    | AttemptOutcome.rateLimited =>
      match budget with
      | 0 => (rateLimitExhausted email, 1, [])
      | b + 1 =>
        let rest := verifyAux oracle email b (idx + 1)
        (rest.1, rest.2.1 + 1,
         BASE_RETRY_DELAY_MS * 2 ^ (MAX_RETRIES - (b + 1)) :: rest.2.2)
    | o => (resultOfOutcome email o, 1, [])

/-- `MailTesterNinjaVerifier.verify` over an attempt oracle. -/
def verify (oracle : Nat → AttemptOutcome) (email : Str) :
    VerificationResult × Nat × List Nat :=
  verifyAux oracle email MAX_RETRIES 0

/-! ### Job repository -/

/-- `JobStatus`. -/
inductive JobStatus : Type
  | pending
  | queued
  | running
  | paused
  | completed
  | failed
  | cancelled
deriving DecidableEq, Repr

/-- The `AsyncJob` columns the verification engine reads and writes
(`started_at` / `completed_at` kept as set/unset flags, the opaque
`result` payload as a set/unset flag). -/
structure Job : Type where
  status : JobStatus
  processedItems : Nat
  failedItems : Nat
  totalItems : Nat
  errorMessage : Option Str
  resultSet : Bool
  startedAt : Bool
  completedAt : Bool
deriving DecidableEq, Repr

/-- The timestamp stamping of `update_status`: `started_at` on a first
transition to `running`, `completed_at` on any terminal status
(`alreadyStarted` is the `started_at` state before the call). -/
def stampTimestamps (j : Job) (alreadyStarted : Bool) (status : JobStatus) : Job :=
  if status = JobStatus.running ∧ ¬alreadyStarted then { j with startedAt := true }
  else if status = JobStatus.completed ∨ status = JobStatus.failed ∨
          status = JobStatus.cancelled then { j with completedAt := true }
  else j

/-- `if error_message: job.error_message = error_message` — stored only
when truthy (non-`None`, non-empty). -/
def storeError (j : Job) (errorMessage : Option Str) : Job :=
  match errorMessage with
  | some m => if m = [] then j else { j with errorMessage := some m }
  | none => j

/-- `if result: job.result = result` — the payloads passed by the tasks
are non-empty dicts, hence truthy; modelled as a set/unset flag. -/
def storeResult (j : Job) (resultProvided : Bool) : Job :=
  if resultProvided then { j with resultSet := true } else j

/-- `JobRepository.update_status` on a loaded job: the status is assigned
unconditionally, then timestamps, error message and result are stored. -/
def updateStatus (j : Job) (status : JobStatus) (errorMessage : Option Str)
    (resultProvided : Bool) : Job :=
  storeResult
    (storeError (stampTimestamps { j with status := status } j.startedAt status)
      errorMessage)
    resultProvided

/-- `JobRepository.update_progress`: stores the passed counters as given
(no clamping), keeping a counter when its argument is `None`. -/
def updateProgress (j : Job) (processedItems failedItems : Option Nat) : Job :=
  { j with processedItems := processedItems.getD j.processedItems,
           failedItems := failedItems.getD j.failedItems }

/-- `JobRepository.cancel` on a loaded job: refused only when the job is
already `completed` or `cancelled`; any other status (including `failed`)
is overwritten with `cancelled`.  Returns the job and the success flag. -/
def repoCancel (j : Job) : Job × Bool :=
  if j.status = JobStatus.completed ∨ j.status = JobStatus.cancelled then (j, false)
  else ({ j with status := JobStatus.cancelled, completedAt := true }, true)

/-! ### The bulk-verify-leads stage -/

/-- One entry of `config["leads"]`. -/
structure LeadIn : Type where
  firstName : Str
  lastName : Str
  website : Str
deriving DecidableEq, Repr

/-- The domain normalisation pre-pass of `verify_leads_batch` (identical
to `_clean_domain` of the API layer): strip, lowercase, drop scheme and
`www.`, drop trailing slashes. -/
def cleanDomain (website : Str) : Str :=
  let d := lowerStr (stripWs website)
  let d := removePrefix (("https://").toList) d
  let d := removePrefix (("http://").toList) d
  let d := removePrefix (("www.").toList) d
  rstripChar '/' d

/-- First-occurrence deduplication — the key order of a Python dict
built by insertion. -/
def firstOccur (xs : List Str) : List Str := xs.foldl addIfNew []

/-- The leads tagged with their cleaned domain (`lead["_domain"]`). -/
def taggedLeads (leads : List LeadIn) : List (Str × LeadIn) :=
  leads.map (fun l => (cleanDomain l.website, l))

/-- The `domain_groups` pre-pass flattened back to processing order:
leads are tagged with their cleaned domain and iterated bucket by bucket
(buckets in first-occurrence order, leads in input order within each). -/
def groupedLeads (leads : List LeadIn) : List (Str × LeadIn) :=
  (firstOccur ((taggedLeads leads).map Prod.fst)).flatMap
    (fun d => (taggedLeads leads).filter (fun p => p.1 = d))

/-- The in-memory state of one `verify_leads_batch` run, together with
the traces the claims examine: the vendor calls issued (in order) and
the `(processed_items, failed_items)` pairs committed by
`update_progress`. -/
structure BatchState : Type where
  domainPatterns : List (Str × Pattern)
  catchAllDomains : List Str
  deadDomains : List Str
  verifiedLeads : List (LeadIn × Str)
  processed : Nat
  failed : Nat
  callCount : Nat
  calls : List Str
  commits : List (Nat × Nat)
deriving DecidableEq, Repr

/-- The start-of-run state. -/
def initialBatchState : BatchState :=
  { domainPatterns := [], catchAllDomains := [], deadDomains := [],
    verifiedLeads := [], processed := 0, failed := 0, callCount := 0,
    calls := [], commits := [] }

/-- A vendor oracle: result of the `n`-th `verifier.verify` call of the
run, for the given email. -/
def VendorOracle : Type := Nat → Str → VerificationResult

/-- `result.reason and "No MX" in result.reason`. -/
def reasonHasNoMx (reason : Option Str) : Bool :=
  match reason with
  | none => false
  | some s => !s.isEmpty && containsSeq (("No MX").toList) s

/-- Outcome of the inner candidate loop of `verify_leads_batch`. -/
inductive ProbeOutcome : Type
  | foundValid (email : Str) (pat : Option Pattern)
  | catchAllHit
  | deadHit
  | exhausted
deriving DecidableEq, Repr

/-- The `for email in permutations` loop: probes candidates in order
until a break, returning the outcome, the next call index, and the
emails dispatched to the vendor. -/
def probeCandidates (oracle : VendorOracle) (lead : LeadIn) :
    List Str → Nat → ProbeOutcome × Nat × List Str
  | [], idx => (ProbeOutcome.exhausted, idx, [])
  | e :: rest, idx =>
    let r := oracle idx e
    if r.status = VStatus.valid then
      (ProbeOutcome.foundValid e (detectPattern e lead.firstName lead.lastName),
       idx + 1, [e])
    else if r.status = VStatus.catchAll then (ProbeOutcome.catchAllHit, idx + 1, [e])
    else if r.status = VStatus.invalid ∧ reasonHasNoMx r.reason then
      (ProbeOutcome.deadHit, idx + 1, [e])
    else
      let rest' := probeCandidates oracle lead rest (idx + 1)
      (rest'.1, rest'.2.1, e :: rest'.2.2)

/-- The task uses `EmailPermutator()` — no known patterns. -/
def noPatterns : KnownPatterns := fun _ => none

/-- The raw permutation list of a lead
(`permutator.generate(first_name, last_name, domain)`, default max 13). -/
def basePerms (lead : LeadIn) (d : Str) : List Str :=
  generate noPatterns lead.firstName lead.lastName d 13

/-- The candidate list actually probed for a lead: the raw permutations,
with the learned pattern (applied to the lower-cased stripped but NOT
normalised names, as in the task) moved to the front when present in the
list, then truncated to one entry for a known catch-all domain. -/
def permsFor (st : BatchState) (d : Str) (lead : LeadIn) : List Str :=
  let perms := basePerms lead d
  let perms :=
    match st.domainPatterns.lookup d with
    | some pat =>
      let knownEmail :=
        mkEmail (applyPattern pat (stripWs (lowerStr lead.firstName))
                  (stripWs (lowerStr lead.lastName))) d
      if knownEmail ∈ perms then knownEmail :: perms.erase knownEmail else perms
    | none => perms
  if d ∈ st.catchAllDomains then perms.take 1 else perms

/-- `if processed % 10 == 0: update_progress(...); commit()`. -/
def flushMaybe (st : BatchState) : BatchState :=
  if st.processed % 10 = 0 then
    { st with commits := st.commits ++ [(st.processed, st.failed)] }
  else st

/-- The `failed += 1; processed += 1; flush-every-10` path shared by the
dead-domain skip and the empty-permutations skip. -/
def countFail (st : BatchState) : BatchState :=
  flushMaybe { st with failed := st.failed + 1, processed := st.processed + 1 }

/-- The state change after the candidate loop: record the vendor calls,
then apply the break outcome — learn a pattern on `valid`, extend the
catch-all or dead set on those verdicts, count the lead processed and
(when unverified) failed. -/
def applyProbe (st : BatchState) (d : Str) (lead : LeadIn)
    (pr : ProbeOutcome × Nat × List Str) : BatchState :=
  match pr.1 with
  | ProbeOutcome.foundValid e pat =>
    { st with
        callCount := pr.2.1, calls := st.calls ++ pr.2.2,
        verifiedLeads := st.verifiedLeads ++ [(lead, e)],
        domainPatterns :=
          match pat with
          | some p => (d, p) :: st.domainPatterns
          | none => st.domainPatterns,
        processed := st.processed + 1 }
  | ProbeOutcome.catchAllHit =>
    { st with
        callCount := pr.2.1, calls := st.calls ++ pr.2.2,
        catchAllDomains := addIfNew st.catchAllDomains d,
        failed := st.failed + 1, processed := st.processed + 1 }
  | ProbeOutcome.deadHit =>
    { st with
        callCount := pr.2.1, calls := st.calls ++ pr.2.2,
        deadDomains := addIfNew st.deadDomains d,
        failed := st.failed + 1, processed := st.processed + 1 }
  | ProbeOutcome.exhausted =>
    { st with
        callCount := pr.2.1, calls := st.calls ++ pr.2.2,
        failed := st.failed + 1, processed := st.processed + 1 }

/-- One iteration of the per-lead loop of `verify_leads_batch`. -/
def processLead (oracle : VendorOracle) (st : BatchState) (d : Str)
    (lead : LeadIn) : BatchState :=
  if d ∈ st.deadDomains then countFail st
  else if basePerms lead d = [] then countFail st
  else
    flushMaybe (applyProbe st d lead
      (probeCandidates oracle lead (permsFor st d lead) st.callCount))

/-- The pure fold of the per-lead loop over the grouped leads. -/
def leadsFold (oracle : VendorOracle) (pairs : List (Str × LeadIn))
    (st : BatchState) : BatchState :=
  pairs.foldl (fun st p => processLead oracle st p.1 p.2) st

/-- The outward-visible effects of one `verify_leads_batch` run (with the
MailTester key configured): the final in-memory state with its traces,
the sequence of `update_status` writes, and whether the webhook was
posted.  The status writes are applied to the job unconditionally by
`updateStatus`; the webhook fires on the completion path whenever a
webhook URL is configured. -/
structure LeadsRunOutcome : Type where
  finalState : BatchState
  statusWrites : List JobStatus
  webhookFired : Bool
deriving DecidableEq, Repr

/-- The final `update_progress` commit appended after the loop. -/
def withFinalCommit (st : BatchState) : BatchState :=
  { st with commits := st.commits ++ [(st.processed, st.failed)] }

/-- The final in-memory state of a (non-empty) `verify_leads_batch` run. -/
def leadsFinalState (oracle : VendorOracle) (leads : List LeadIn) : BatchState :=
  withFinalCommit (leadsFold oracle (groupedLeads leads) initialBatchState)

/-- `verify_leads_batch` (the task body after the job is loaded, with the
API key configured).  The empty-lead guard marks the job failed; the
normal path processes every grouped lead, appends the final
`update_progress` commit, writes `completed`, and posts the webhook when
a URL is configured. -/
def runLeadsBatch (oracle : VendorOracle) (leads : List LeadIn)
    (webhookUrl : Option Str) : LeadsRunOutcome :=
  if leads = [] then
    { finalState := initialBatchState,
      statusWrites := [JobStatus.running, JobStatus.failed],
      webhookFired := false }
  else
    { finalState := leadsFinalState oracle leads,
      statusWrites := [JobStatus.running, JobStatus.completed],
      webhookFired := webhookUrl.isSome }

/-- Mirror of the periodic flush onto the job row. -/
def jobFlush (j : Job) (st : BatchState) : Job :=
  if st.processed % 10 = 0 then
    updateProgress j (some st.processed) (some st.failed)
  else j

/-- An externally issued `JobRepository.cancel` right after item
`itemIndex + 1` when `cancelAfter` says so. -/
def maybeCancel (cancelAfter : Option Nat) (itemIndex : Nat) (j : Job) : Job :=
  match cancelAfter with
  | some k => if k = itemIndex + 1 then (repoCancel j).1 else j
  | none => j

/-- One per-item step of the run threaded through the job row: the stage
processes the lead and flushes; the external cancel (if scheduled here)
lands at the item boundary.  The stage never reads `acc.1`. -/
def cancelStep (oracle : VendorOracle) (cancelAfter : Option Nat)
    (acc : Job × BatchState) (p : Nat × (Str × LeadIn)) : Job × BatchState :=
  (maybeCancel cancelAfter p.1
    (jobFlush acc.1 (processLead oracle acc.2 p.2.1 p.2.2)),
   processLead oracle acc.2 p.2.1 p.2.2)

/-- The per-item loop threaded through the job row. -/
def cancelFold (oracle : VendorOracle) (cancelAfter : Option Nat)
    (pairs : List (Nat × (Str × LeadIn))) (acc : Job × BatchState) :
    Job × BatchState :=
  pairs.foldl (cancelStep oracle cancelAfter) acc

/-- `verify_leads_batch` threaded through the `Job` row, with an external
`JobRepository.cancel` interleaved after the `k`-th processed item when
`cancelAfter = some k` (the task itself never rereads `job.status`). -/
def runLeadsBatchWithCancel (oracle : VendorOracle) (leads : List LeadIn)
    (webhookUrl : Option Str) (cancelAfter : Option Nat) (j : Job) :
    Job × BatchState × Bool :=
  if leads = [] then
    (updateStatus (updateStatus j JobStatus.running none false) JobStatus.failed
       (some (("No leads provided").toList)) false,
     initialBatchState, false)
  else
    (updateProgress
       (updateStatus
         (cancelFold oracle cancelAfter (groupedLeads leads).enum
           (updateStatus j JobStatus.running none false, initialBatchState)).1
         JobStatus.completed none true)
       (some (cancelFold oracle cancelAfter (groupedLeads leads).enum
           (updateStatus j JobStatus.running none false, initialBatchState)).2.processed)
       (some (cancelFold oracle cancelAfter (groupedLeads leads).enum
           (updateStatus j JobStatus.running none false, initialBatchState)).2.failed),
     withFinalCommit
       (cancelFold oracle cancelAfter (groupedLeads leads).enum
         (updateStatus j JobStatus.running none false, initialBatchState)).2,
     webhookUrl.isSome)

/-! ### The bulk-verify-emails stage -/

/-- One per-email record of `verify_emails_batch` results. -/
structure EmailRecord : Type where
  email : Str
  status : VStatus
  is_deliverable : Bool
  is_catch_all : Bool
  mx_found : Bool
  reason : Option Str
deriving DecidableEq, Repr

/-- The running state of one `verify_emails_batch` run.  `processed`
counts `valid` verdicts, `failed` everything else; the committed pairs
are `(processed + failed, failed)`. -/
structure EmailBatchState : Type where
  results : List EmailRecord
  processed : Nat
  failed : Nat
  callCount : Nat
  commits : List (Nat × Nat)
deriving DecidableEq, Repr

/-- Start-of-run state of the emails stage. -/
def initialEmailState : EmailBatchState :=
  { results := [], processed := 0, failed := 0, callCount := 0, commits := [] }

/-- Append the per-email record and count the vendor call. -/
def recordResult (st : EmailBatchState) (email : Str) (r : VerificationResult) :
    EmailBatchState :=
  { st with
    callCount := st.callCount + 1,
    results := st.results ++
      [{ email := email, status := r.status, is_deliverable := r.is_deliverable,
         is_catch_all := r.is_catch_all, mx_found := r.mx_found,
         reason := r.reason }] }

/-- `processed += 1` on a `valid` verdict, else `failed += 1`. -/
def tallyResult (st : EmailBatchState) (r : VerificationResult) : EmailBatchState :=
  if r.status = VStatus.valid then { st with processed := st.processed + 1 }
  else { st with failed := st.failed + 1 }

/-- `if total_done % 10 == 0: update_progress(total_done, failed)`. -/
def flushEmailsMaybe (st : EmailBatchState) : EmailBatchState :=
  if (st.processed + st.failed) % 10 = 0 then
    { st with commits := st.commits ++ [(st.processed + st.failed, st.failed)] }
  else st

/-- One iteration of the `for email in emails` loop of
`verify_emails_batch` (the verdict `oracle st.callCount email` is the
one `verifier.verify(email)` returned for this call). -/
def processEmail (oracle : VendorOracle) (st : EmailBatchState) (email : Str) :
    EmailBatchState :=
  flushEmailsMaybe
    (tallyResult (recordResult st email (oracle st.callCount email))
      (oracle st.callCount email))

/-- Outward-visible effects of one `verify_emails_batch` run. -/
structure EmailsRunOutcome : Type where
  finalState : EmailBatchState
  statusWrites : List JobStatus
  webhookFired : Bool
deriving DecidableEq, Repr

/-- The final `update_progress(processed + failed, failed)` commit of the
emails stage. -/
def withFinalEmailCommit (st : EmailBatchState) : EmailBatchState :=
  { st with commits := st.commits ++ [(st.processed + st.failed, st.failed)] }

/-- The final state of a (non-empty) `verify_emails_batch` run. -/
def emailsFinalState (oracle : VendorOracle) (emails : List Str) :
    EmailBatchState :=
  withFinalEmailCommit (emails.foldl (processEmail oracle) initialEmailState)

/-- `verify_emails_batch` (after job load, key configured): processes the
emails in input order, appends the final
`update_progress(processed + failed, failed)` commit, writes
`completed`, and posts the webhook when a URL is configured. -/
def runEmailsBatch (oracle : VendorOracle) (emails : List Str)
    (webhookUrl : Option Str) : EmailsRunOutcome :=
  if emails = [] then
    { finalState := initialEmailState,
      statusWrites := [JobStatus.running, JobStatus.failed],
      webhookFired := false }
  else
    { finalState := emailsFinalState oracle emails,
      statusWrites := [JobStatus.running, JobStatus.completed],
      webhookFired := webhookUrl.isSome }

/-! ### Helper lemmas: `addIfNew` folds -/

/-! ### Concrete instances and invariant predicates used by the claims -/

/-- The full candidate pool of `generate`, in construction order. -/
def candidatePool (kp : KnownPatterns) (first last domain : Str) : List Str :=
  knownCandidate kp first last domain ++
    COMMON_PATTERNS.map (fun p => mkEmail (applyPattern p first last) domain)

/-- A known-pattern table recording `{first}.{last}` for `example.com`. -/
def kpExample : KnownPatterns :=
  fun d => if d = ("example.com").toList then some Pattern.firstDotLast else none

/-- A lead whose first name normalises to the empty string. -/
def numericLead : LeadIn :=
  { firstName := ("123").toList, lastName := ("Lovelace").toList,
    website := ("example.com").toList }

/-- A vendor oracle answering `unknown` for every call. -/
def oracleUnknown : VendorOracle := fun _ e => baseResult e VStatus.unknown

/-- The messages with dedicated rows in the decoding table. -/
def recognizedMessages : List Str :=
  [("accepted").toList, ("limited").toList, ("catch-all").toList,
   ("rejected").toList, ("no mx").toList, ("mx error").toList,
   ("timeout").toList, ("spam block").toList]

/-- A failed job row. -/
def jobFailed : Job :=
  { status := JobStatus.failed, processedItems := 3, failedItems := 3,
    totalItems := 3, errorMessage := some (("boom").toList), resultSet := false,
    startedAt := true, completedAt := true }

/-- A completed job row. -/
def jobCompleted : Job :=
  { jobFailed with
    status := JobStatus.completed, errorMessage := none,
    resultSet := true }

/-- A plain lead on `example.com`. -/
def adaLead : LeadIn :=
  { firstName := ("Ada").toList, lastName := ("Lovelace").toList,
    website := ("example.com").toList }

/-- A vendor oracle answering `catch_all` for every call. -/
def oracleCatchAll : VendorOracle := fun _ e =>
  { baseResult e VStatus.catchAll with
    is_deliverable := true, is_catch_all := true,
    reason := some (("Catch-all domain - email may or may not exist").toList) }

/-- A run state that has already recorded `example.com` as catch-all. -/
def stCatch : BatchState :=
  { initialBatchState with catchAllDomains := [("example.com").toList] }

/-- Successive commits are non-decreasing in both counters. -/
def CommitsMono (commits : List (Nat × Nat)) : Prop :=
  List.Chain' (fun a b => a.1 ≤ b.1 ∧ a.2 ≤ b.2) commits

/-- Every commit satisfies `failed ≤ processed` with both counters below
the current in-memory ones, and the sequence is monotone. -/
def CommitsOK (p f : Nat) (commits : List (Nat × Nat)) : Prop :=
  (∀ c ∈ commits, c.2 ≤ c.1 ∧ c.1 ≤ p ∧ c.2 ≤ f) ∧ CommitsMono commits

/-- The running invariant of the leads stage. -/
def LeadsInv (st : BatchState) : Prop :=
  st.failed ≤ st.processed ∧ CommitsOK st.processed st.failed st.commits

/-- The running invariant of the emails stage (commits are
`(processed + failed, failed)` pairs). -/
def EmailsInv (st : EmailBatchState) : Prop :=
  CommitsOK (st.processed + st.failed) st.failed st.commits

/-- A freshly submitted job with two leads. -/
def pendingJob : Job :=
  { status := JobStatus.pending, processedItems := 0, failedItems := 0,
    totalItems := 2, errorMessage := none, resultSet := false,
    startedAt := false, completedAt := false }

/-- A second lead on the same domain. -/
def alanLead : LeadIn :=
  { firstName := ("Alan").toList, lastName := ("Turing").toList,
    website := ("example.com").toList }

theorem mem_addIfNew {α : Type} [DecidableEq α] (acc : List α) (b a : α) :
    a ∈ addIfNew acc b ↔ a ∈ acc ∨ a = b := by
  unfold addIfNew
  by_cases h : b ∈ acc
  · simp only [if_pos h]
    constructor
    · exact Or.inl
    · rintro (ha | rfl)
      · exact ha
      · exact h
  · simp [if_neg h]

theorem addIfNew_ne_nil {α : Type} [DecidableEq α] (acc : List α) (b : α) :
    addIfNew acc b ≠ [] := by
  unfold addIfNew
  by_cases h : b ∈ acc
  · simp only [if_pos h]
    exact List.ne_nil_of_mem h
  · simp [if_neg h]

theorem nodup_addIfNew {α : Type} [DecidableEq α] {acc : List α} (b : α)
    (h : acc.Nodup) : (addIfNew acc b).Nodup := by
  unfold addIfNew
  by_cases hb : b ∈ acc
  · simpa [hb]
  · simp [hb, List.nodup_append, h]

theorem prefix_addIfNew {α : Type} [DecidableEq α] (acc : List α) (b : α) :
    acc <+: addIfNew acc b := by
  unfold addIfNew
  by_cases hb : b ∈ acc
  · simp [hb]
  · simp only [if_neg hb]
    exact ⟨[b], rfl⟩

theorem sublist_addIfNew {α : Type} [DecidableEq α] (acc : List α) (b : α) :
    (addIfNew acc b).Sublist (acc ++ [b]) := by
  unfold addIfNew
  by_cases hb : b ∈ acc
  · simp only [if_pos hb]
    exact List.sublist_append_left acc [b]
  · simp [if_neg hb]

theorem foldl_addIfNew_prefix {α : Type} [DecidableEq α] (l : List α) (acc : List α) :
    acc <+: l.foldl addIfNew acc := by
  induction l generalizing acc with
  | nil => exact List.prefix_refl _
  | cons x xs ih => exact (prefix_addIfNew acc x).trans (ih _)

theorem foldl_addIfNew_nodup {α : Type} [DecidableEq α] (l : List α) {acc : List α}
    (h : acc.Nodup) : (l.foldl addIfNew acc).Nodup := by
  induction l generalizing acc with
  | nil => exact h
  | cons x xs ih => exact ih (nodup_addIfNew x h)

theorem foldl_addIfNew_sublist {α : Type} [DecidableEq α] (l : List α) (acc : List α) :
    (l.foldl addIfNew acc).Sublist (acc ++ l) := by
  induction l generalizing acc with
  | nil => simp
  | cons x xs ih =>
    have h1 : (x :: xs).foldl addIfNew acc = xs.foldl addIfNew (addIfNew acc x) := rfl
    rw [h1]
    have h2 := (ih (addIfNew acc x)).trans ((sublist_addIfNew acc x).append_right xs)
    simpa using h2

theorem mem_foldl_addIfNew {α : Type} [DecidableEq α] (l : List α) (acc : List α)
    (a : α) : a ∈ l.foldl addIfNew acc ↔ a ∈ acc ∨ a ∈ l := by
  induction l generalizing acc with
  | nil => simp
  | cons x xs ih =>
    have h1 : (x :: xs).foldl addIfNew acc = xs.foldl addIfNew (addIfNew acc x) := rfl
    rw [h1, ih, mem_addIfNew]
    simp only [List.mem_cons]
    tauto

theorem foldl_addIfNew_ne_nil {α : Type} [DecidableEq α] (x : α) (xs : List α)
    (acc : List α) : (x :: xs).foldl addIfNew acc ≠ [] := by
  have h1 : (x :: xs).foldl addIfNew acc = xs.foldl addIfNew (addIfNew acc x) := rfl
  rw [h1]
  obtain ⟨t, ht⟩ := foldl_addIfNew_prefix xs (addIfNew acc x)
  intro hnil
  rw [← ht] at hnil
  rcases List.append_eq_nil.mp hnil with ⟨h2, -⟩
  exact addIfNew_ne_nil acc x h2

/-! ### Helper lemmas: characters -/

theorem toNat_ofNat_valid (n : Nat) (h : n.isValidChar) :
    (Char.ofNat n).toNat = n := by
  rw [Char.ofNat, dif_pos h]
  simp [Char.toNat, Char.ofNatAux, UInt32.ofNat', UInt32.toNat, BitVec.toNat_ofNatLt]

/-- `Char.toLower` is idempotent. -/
theorem toLower_toLower (c : Char) : c.toLower.toLower = c.toLower := by
  unfold Char.toLower
  by_cases h : 65 ≤ c.toNat ∧ c.toNat ≤ 90
  · have hv : Nat.isValidChar (c.toNat + 32) := Or.inl (by omega)
    have ht : (Char.ofNat (c.toNat + 32)).toNat = c.toNat + 32 := toNat_ofNat_valid _ hv
    simp only [h, and_self, if_true, ge_iff_le]
    rw [if_neg]
    omega
  · simp only [ge_iff_le]
    rw [if_neg h, if_neg h]

/-! ### Helper lemmas: `generate` -/

theorem generate_length_le (kp : KnownPatterns) (f l d : Str) (m : Nat) :
    (generate kp f l d m).length ≤ m := by
  unfold generate
  split
  · simp
  · exact List.length_take_le _ _

theorem knownCandidate_nodup (kp : KnownPatterns) (first last d : Str) :
    (knownCandidate kp first last d).Nodup := by
  unfold knownCandidate
  cases kp d <;> simp

theorem rawPerms_nodup (kp : KnownPatterns) (first last d : Str) :
    (rawPerms kp first last d).Nodup :=
  foldl_addIfNew_nodup _ (knownCandidate_nodup kp first last d)

theorem rawPerms_ne_nil (kp : KnownPatterns) (first last d : Str) :
    rawPerms kp first last d ≠ [] := by
  unfold rawPerms COMMON_PATTERNS
  simp only [List.map_cons]
  exact foldl_addIfNew_ne_nil _ _ _

theorem generate_nodup (kp : KnownPatterns) (f l d : Str) (m : Nat) :
    (generate kp f l d m).Nodup := by
  unfold generate
  split
  · simp
  · exact List.Nodup.sublist (List.take_sublist _ _) (rawPerms_nodup kp _ _ d)

theorem generate_sublist (kp : KnownPatterns) (f l d : Str) (m : Nat) :
    (generate kp f l d m).Sublist (candidatePool kp (prepName f) (prepName l) d) := by
  unfold generate candidatePool
  split
  · exact List.nil_sublist _
  · exact (List.take_sublist _ _).trans (foldl_addIfNew_sublist _ _)

theorem generate_head_known (kp : KnownPatterns) (f l d : Str) (m : Nat)
    (p : Pattern) (hkp : kp d = some p) (hne : generate kp f l d m ≠ []) :
    (generate kp f l d m).head? =
      some (mkEmail (applyPattern p (prepName f) (prepName l)) d) := by
  unfold generate at hne ⊢
  split
  · exact absurd (by simp_all) hne
  · have hbase : knownCandidate kp (prepName f) (prepName l) d =
        [mkEmail (applyPattern p (prepName f) (prepName l)) d] := by
      unfold knownCandidate
      rw [hkp]
    obtain ⟨t, ht⟩ := foldl_addIfNew_prefix
      (COMMON_PATTERNS.map (fun q => mkEmail (applyPattern q (prepName f) (prepName l)) d))
      (knownCandidate kp (prepName f) (prepName l) d)
    rw [hbase] at ht
    unfold rawPerms
    rw [hbase, ← ht]
    cases m with
    | zero =>
      rename_i hguard
      rw [if_neg hguard] at hne
      simp at hne
    | succ m => simp

theorem generate_mem_none (kp : KnownPatterns) (f l d : Str) (m : Nat)
    (hkp : kp d = none) (e : Str) (he : e ∈ generate kp f l d m) :
    ∃ p ∈ COMMON_PATTERNS, e = mkEmail (applyPattern p (prepName f) (prepName l)) d := by
  unfold generate at he
  split at he
  · simp at he
  · have h1 : e ∈ rawPerms kp (prepName f) (prepName l) d :=
      List.mem_of_mem_take he
    unfold rawPerms at h1
    rw [mem_foldl_addIfNew] at h1
    rcases h1 with h1 | h1
    · rw [show knownCandidate kp (prepName f) (prepName l) d = [] by
        unfold knownCandidate; rw [hkp]] at h1
      simp at h1
    · obtain ⟨p, hp, he2⟩ := List.mem_map.mp h1
      exact ⟨p, hp, he2.symm⟩

theorem take_ne_nil_of_ne_nil {α : Type} (l : List α) (m : Nat) (hl : l ≠ [])
    (hm : 1 ≤ m) : l.take m ≠ [] := by
  cases l with
  | nil => exact absurd rfl hl
  | cons x xs =>
    cases m with
    | zero => omega
    | succ m => simp

theorem generate_eq_nil_iff (kp : KnownPatterns) (f l d : Str) (m : Nat)
    (hm : 1 ≤ m) :
    generate kp f l d m = [] ↔ prepName f = [] ∨ prepName l = [] ∨ d = [] := by
  unfold generate
  split
  · rename_i h
    simpa using h
  · rename_i h
    constructor
    · intro hnil
      exact absurd hnil
        (take_ne_nil_of_ne_nil _ m (rawPerms_ne_nil kp _ _ d) hm)
    · intro hc
      exact absurd hc h

/-! ### Helper lemmas: characters of prepared names -/

theorem mem_stripHyphens {c : Char} {s : Str} (h : c ∈ stripHyphens s) : c ∈ s := by
  unfold stripHyphens at h
  simp only [List.mem_reverse] at h
  have h1 : (((s.dropWhile (· = '-')).reverse.dropWhile (· = '-')).Sublist
      ((s.dropWhile (· = '-')).reverse)) := List.dropWhile_sublist _
  have h2 := h1.mem h
  simp only [List.mem_reverse] at h2
  exact (List.dropWhile_sublist _).mem h2

theorem mem_stripWs {c : Char} {s : Str} (h : c ∈ stripWs s) : c ∈ s := by
  unfold stripWs at h
  simp only [List.mem_reverse] at h
  have h2 := (List.dropWhile_sublist _).mem h
  simp only [List.mem_reverse] at h2
  exact (List.dropWhile_sublist _).mem h2

theorem mem_foldl_stripSuffix (l : List Str) (name : Str) (c : Char)
    (h : c ∈ l.foldl
      (fun n suf => if suf.isSuffixOf n then n.take (n.length - suf.length) else n)
      name) : c ∈ name := by
  induction l generalizing name with
  | nil => exact h
  | cons s ss ih =>
    have h1 := ih _ h
    revert h1
    dsimp only
    split
    · intro h1
      exact (List.take_sublist _ _).mem h1
    · exact id

theorem mem_stripNameSuffixes {c : Char} {s : Str} (h : c ∈ stripNameSuffixes s) :
    c ∈ s := by
  unfold stripNameSuffixes at h
  exact mem_foldl_stripSuffix _ _ _ h

theorem mem_normalizeChars {c : Char} {s : Str} (h : c ∈ normalizeChars s) :
    (c ∈ s ∧ (c.isAlpha ∨ c = '-')) ∨ c = '-' := by
  unfold normalizeChars at h
  obtain ⟨a, ha, hfa⟩ := List.mem_filterMap.mp h
  by_cases h1 : a.isAlpha ∨ a = '-'
  · rw [if_pos h1] at hfa
    cases hfa
    exact Or.inl ⟨ha, h1⟩
  · rw [if_neg h1] at hfa
    by_cases h2 : a = ' '
    · rw [if_pos h2] at hfa
      cases hfa
      exact Or.inr rfl
    · rw [if_neg h2] at hfa
      cases hfa

theorem mem_lowerStr {c : Char} {s : Str} (h : c ∈ lowerStr s) :
    ∃ c₀ ∈ s, c = c₀.toLower := by
  obtain ⟨c₀, h₀, hc⟩ := List.mem_map.mp h
  exact ⟨c₀, h₀, hc.symm⟩

/-- Every character of a prepared name is a `toLower` fixed point. -/
theorem prepName_toLower_fixed {c : Char} {raw : Str} (h : c ∈ prepName raw) :
    c.toLower = c := by
  unfold prepName normalizeName at h
  rcases mem_normalizeChars (mem_stripHyphens h) with ⟨h1, -⟩ | rfl
  · obtain ⟨c₀, -, rfl⟩ := mem_lowerStr (mem_stripWs (mem_stripNameSuffixes h1))
    exact toLower_toLower c₀
  · decide

/-- Every character of a prepared name is a letter or a hyphen. -/
theorem prepName_alpha {c : Char} {raw : Str} (h : c ∈ prepName raw) :
    c.isAlpha ∨ c = '-' := by
  unfold prepName normalizeName at h
  rcases mem_normalizeChars (mem_stripHyphens h) with ⟨-, h2⟩ | rfl
  · exact h2
  · exact Or.inr rfl

/-- No character of a prepared name is an `@`. -/
theorem prepName_no_at {c : Char} {raw : Str} (h : c ∈ prepName raw) : c ≠ '@' := by
  rcases prepName_alpha h with ha | rfl
  · intro hc
    rw [hc] at ha
    exact absurd ha (by decide)
  · decide

/-- Characters of an applied pattern come from the two names or are the
separators of the pattern list. -/
theorem mem_applyPattern {c : Char} (p : Pattern) (first last : Str)
    (h : c ∈ applyPattern p first last) :
    c ∈ first ∨ c ∈ last ∨ c = '.' ∨ c = '_' := by
  cases p with
  | firstDotLast =>
    simp only [applyPattern, List.mem_append, List.mem_cons] at h
    tauto
  | fLast =>
    simp only [applyPattern, List.mem_append] at h
    rcases h with h | h
    · exact Or.inl (List.mem_of_mem_take h)
    · tauto
  | fDotLast =>
    simp only [applyPattern, List.mem_append, List.mem_cons] at h
    rcases h with h | h | h
    · exact Or.inl (List.mem_of_mem_take h)
    · tauto
    · tauto
  | firstOnly => exact Or.inl h
  | firstLast =>
    simp only [applyPattern, List.mem_append] at h
    tauto
  | firstUnderscoreLast =>
    simp only [applyPattern, List.mem_append, List.mem_cons] at h
    tauto
  | firstL =>
    simp only [applyPattern, List.mem_append] at h
    rcases h with h | h
    · exact Or.inl h
    · exact Or.inr (Or.inl (List.mem_of_mem_take h))
  | lastDotFirst =>
    simp only [applyPattern, List.mem_append, List.mem_cons] at h
    tauto

theorem localPartOf_mkEmail (localPart d : Str)
    (h : ∀ c ∈ localPart, c ≠ '@') : localPartOf (mkEmail localPart d) = localPart := by
  unfold localPartOf mkEmail
  induction localPart with
  | nil => simp
  | cons c cs ih =>
    have hc : c ≠ '@' := h c (List.mem_cons_self c cs)
    rw [List.cons_append, List.takeWhile_cons, if_pos (by simp [hc]),
      ih (fun x hx => h x (List.mem_cons_of_mem _ hx))]

theorem lowerStr_fixed {s : Str} (h : ∀ c ∈ s, c.toLower = c) : lowerStr s = s := by
  unfold lowerStr
  rw [List.map_congr_left h]
  simp

/-- `detect_pattern` succeeds on any email whose local part is a pattern
expansion of the prepared names. -/
theorem detectPattern_of_pool (f l d : Str) (p : Pattern) (hp : p ∈ COMMON_PATTERNS) :
    (detectPattern (mkEmail (applyPattern p (prepName f) (prepName l)) d) f l).isSome := by
  unfold detectPattern
  have hnoat : ∀ c ∈ applyPattern p (prepName f) (prepName l), c ≠ '@' := by
    intro c hc
    rcases mem_applyPattern p _ _ hc with h1 | h1 | rfl | rfl
    · exact prepName_no_at h1
    · exact prepName_no_at h1
    · decide
    · decide
  rw [localPartOf_mkEmail _ _ hnoat]
  have hfix : lowerStr (applyPattern p (prepName f) (prepName l)) =
      applyPattern p (prepName f) (prepName l) := by
    apply lowerStr_fixed
    intro c hc
    rcases mem_applyPattern p _ _ hc with h1 | h1 | rfl | rfl
    · exact prepName_toLower_fixed h1
    · exact prepName_toLower_fixed h1
    · decide
    · decide
  rw [hfix, List.find?_isSome]
  exact ⟨p, hp, by simp⟩

/-! ### Claims about the permutator -/

/-- Claim C8 (amended): for every known-pattern table, names, domain and
maximum, `generate` returns at most `max` pairwise-distinct addresses,
drawn from the candidate pool (known-pattern splice followed by the fixed
pattern list) in its stated order; and when a known pattern is recorded
for the domain and the returned list is nonempty, the address built from
that pattern appears at position 0. -/
theorem c8_generate_shape (kp : KnownPatterns) (f l d : Str) (m : Nat) :
    (generate kp f l d m).length ≤ m ∧
    (generate kp f l d m).Nodup ∧
    (generate kp f l d m).Sublist (candidatePool kp (prepName f) (prepName l) d) ∧
    (∀ p : Pattern, kp d = some p → generate kp f l d m ≠ [] →
      (generate kp f l d m).head? =
        some (mkEmail (applyPattern p (prepName f) (prepName l)) d)) :=
  ⟨generate_length_le kp f l d m, generate_nodup kp f l d m,
   generate_sublist kp f l d m,
   fun p hp hne => generate_head_known kp f l d m p hp hne⟩

/-- Witness for C8: at a concrete input with a recorded pattern the head
of the generated list is the known-pattern address. -/
theorem c8_witness :
    (generate kpExample (("Ada").toList) (("Lovelace").toList)
        (("example.com").toList) 13).head? =
      some (("ada.lovelace@example.com").toList) :=
  ((c8_generate_shape kpExample (("Ada").toList) (("Lovelace").toList)
      (("example.com").toList) 13).2.2.2 Pattern.firstDotLast (by decide)
      (by decide)).trans (by decide)

/-- Counterexample to C8 as stated: with `max = 0` (an allowed input) and
a known pattern recorded for the domain, `generate` returns the empty
list, so the known-pattern address does not appear at position 0. -/
theorem c8_counterexample :
    kpExample (("example.com").toList) = some Pattern.firstDotLast ∧
    (generate kpExample (("Ada").toList) (("Lovelace").toList)
        (("example.com").toList) 0).head? = none := by
  constructor
  · decide
  · decide

/-- Claim C9: when no pattern is recorded for the domain, `detect_pattern`
applied (with the same names) to any in-range element of
`generate(first, last, domain)` returns some pattern — it is never
`None`. -/
theorem c9_detect_after_generate (kp : KnownPatterns) (f l d : Str) (m i : Nat)
    (hkp : kp d = none) (h : i < (generate kp f l d m).length) :
    (detectPattern ((generate kp f l d m).get ⟨i, h⟩) f l).isSome := by
  obtain ⟨p, hp, he⟩ := generate_mem_none kp f l d m hkp
    ((generate kp f l d m).get ⟨i, h⟩) (List.get_mem _ i h)
  rw [he]
  exact detectPattern_of_pool f l d p hp

/-- Witness for C9 at a concrete lead and index. -/
theorem c9_witness :
    (detectPattern ((generate noPatterns (("Ada").toList) (("Lovelace").toList)
        (("example.com").toList) 13).get ⟨7, by decide⟩) (("Ada").toList)
        (("Lovelace").toList)).isSome :=
  c9_detect_after_generate noPatterns (("Ada").toList) (("Lovelace").toList)
    (("example.com").toList) 13 7 rfl (by decide)

theorem countFail_fields (st : BatchState) :
    (countFail st).failed = st.failed + 1 ∧
    (countFail st).processed = st.processed + 1 ∧
    (countFail st).calls = st.calls ∧
    (countFail st).callCount = st.callCount := by
  unfold countFail flushMaybe
  split <;> simp

/-- Claim C10: `generate` returns the empty list exactly when the domain
is empty or the normalisation of the first or last name is empty (for any
positive maximum, 13 in the stage); and in the bulk-verify-leads stage a
lead with no permutations is counted both failed and processed with no
vendor call issued. -/
theorem c10_empty_generation :
    (∀ (kp : KnownPatterns) (f l d : Str) (m : Nat), 1 ≤ m →
      (generate kp f l d m = [] ↔ prepName f = [] ∨ prepName l = [] ∨ d = [])) ∧
    (∀ (oracle : VendorOracle) (st : BatchState) (d : Str) (lead : LeadIn),
      basePerms lead d = [] →
      (processLead oracle st d lead).failed = st.failed + 1 ∧
      (processLead oracle st d lead).processed = st.processed + 1 ∧
      (processLead oracle st d lead).calls = st.calls ∧
      (processLead oracle st d lead).callCount = st.callCount) := by
  constructor
  · exact fun kp f l d m hm => generate_eq_nil_iff kp f l d m hm
  · intro oracle st d lead hb
    by_cases hd : d ∈ st.deadDomains
    · have h1 : processLead oracle st d lead = countFail st := by
        unfold processLead
        rw [if_pos hd]
      rw [h1]
      exact countFail_fields st
    · have h1 : processLead oracle st d lead = countFail st := by
        unfold processLead
        rw [if_neg hd, if_pos hb]
      rw [h1]
      exact countFail_fields st

/-- Witness for C10: an all-numeric first name produces no permutations,
and the stage counts the lead failed and processed without a call. -/
theorem c10_witness :
    (generate noPatterns (("123").toList) (("Lovelace").toList)
        (("example.com").toList) 13 = []) ∧
    (processLead oracleUnknown initialBatchState (("example.com").toList)
        numericLead).failed = 1 ∧
    (processLead oracleUnknown initialBatchState (("example.com").toList)
        numericLead).calls = [] := by
  refine ⟨(c10_empty_generation.1 noPatterns (("123").toList) (("Lovelace").toList)
    (("example.com").toList) 13 (by decide)).mpr (Or.inl (by decide)), ?_, ?_⟩
  · have h := (c10_empty_generation.2 oracleUnknown initialBatchState
      (("example.com").toList) numericLead (by decide)).1
    rw [h]
    decide
  · have h := (c10_empty_generation.2 oracleUnknown initialBatchState
      (("example.com").toList) numericLead (by decide)).2.2.1
    rw [h]
    decide

/-! ### Claim about the response decoder -/

/-- Claim C4 (amended): for every vendor response whose code equals `ok`
case-insensitively, whose message is none of the recognised ones, and
whose `mx` field is present (not missing, empty, or the string `null`),
the decoder returns `valid` with `is_deliverable = true` and the original
message passed through as the reason (`None` for an empty message). -/
theorem c4_ok_passthrough (email : Str) (data : NinjaResponse)
    (hcode : lowerStr data.code = ("ok").toList)
    (hmsg : lowerStr data.message ∉ recognizedMessages)
    (hmx : mxMissing data.mx = false) :
    (parseResponse email data).status = VStatus.valid ∧
    (parseResponse email data).is_deliverable = true ∧
    (parseResponse email data).reason =
      (if data.message = [] then none else some data.message) := by
  have hm1 : lowerStr data.message ≠ ("accepted").toList :=
    fun hc => hmsg (hc ▸ (by decide : (("accepted").toList) ∈ recognizedMessages))
  have hm2 : lowerStr data.message ≠ ("limited").toList :=
    fun hc => hmsg (hc ▸ (by decide : (("limited").toList) ∈ recognizedMessages))
  have hm3 : lowerStr data.message ≠ ("catch-all").toList :=
    fun hc => hmsg (hc ▸ (by decide : (("catch-all").toList) ∈ recognizedMessages))
  have hm4 : lowerStr data.message ≠ ("rejected").toList :=
    fun hc => hmsg (hc ▸ (by decide : (("rejected").toList) ∈ recognizedMessages))
  have hm5 : lowerStr data.message ≠ ("no mx").toList :=
    fun hc => hmsg (hc ▸ (by decide : (("no mx").toList) ∈ recognizedMessages))
  have hm6 : lowerStr data.message ≠ ("mx error").toList :=
    fun hc => hmsg (hc ▸ (by decide : (("mx error").toList) ∈ recognizedMessages))
  have hm7 : lowerStr data.message ≠ ("timeout").toList :=
    fun hc => hmsg (hc ▸ (by decide : (("timeout").toList) ∈ recognizedMessages))
  have hm8 : lowerStr data.message ≠ ("spam block").toList :=
    fun hc => hmsg (hc ▸ (by decide : (("spam block").toList) ∈ recognizedMessages))
  have heq : parseResponse email data =
      { baseResult email VStatus.valid with
          is_deliverable := true, mx_found := mxBool data.mx,
          reason := if data.message = [] then none else some data.message } := by
    unfold parseResponse
    rw [if_neg (fun h => hm1 h.2), if_neg (fun h => hm2 h.2), if_neg hm3,
      if_neg (fun h => (by decide : ("ok").toList ≠ ("mb").toList)
        (hcode.symm.trans h)),
      if_neg (fun h => h.elim
        (fun hk => (by decide : ("ok").toList ≠ ("ko").toList)
          (hcode.symm.trans hk)) hm4),
      if_neg hm5, if_neg hm6, if_neg hm7, if_neg hm8,
      if_neg (by rw [hmx]; exact Bool.false_ne_true), if_pos hcode]
  rw [heq]
  exact ⟨rfl, rfl, rfl⟩

/-- Counterexample to C4 as stated: `code = "ok"` with the unrecognised
message `Greylisted` but a missing `mx` field decodes to `invalid`, not
`valid`. -/
theorem c4_counterexample :
    (parseResponse (("a@b.co").toList)
        { code := ("ok").toList, message := ("Greylisted").toList, mx := none }).status
      = VStatus.invalid ∧
    (parseResponse (("a@b.co").toList)
        { code := ("ok").toList, message := ("Greylisted").toList, mx := none }).status
      ≠ VStatus.valid := by
  constructor
  · decide
  · decide

/-- Witness for C4 at a concrete response with `mx` present. -/
theorem c4_witness :
    (parseResponse (("a@b.co").toList)
        { code := ("OK").toList, message := ("Greylisted").toList,
          mx := some (("mx1.b.co").toList) }).status = VStatus.valid ∧
    (parseResponse (("a@b.co").toList)
        { code := ("OK").toList, message := ("Greylisted").toList,
          mx := some (("mx1.b.co").toList) }).reason =
      some (("Greylisted").toList) := by
  have h := c4_ok_passthrough (("a@b.co").toList)
    { code := ("OK").toList, message := ("Greylisted").toList,
      mx := some (("mx1.b.co").toList) } (by decide) (by decide) (by decide)
  exact ⟨h.1, h.2.2.trans (by decide)⟩

/-! ### Claim about the rate limiter -/

theorem mem_purgeWindow {t now : Int} {ts : List Int} (h : t ∈ purgeWindow now ts) :
    t ∈ ts ∧ now - t < RATE_LIMIT_WINDOW_MS := by
  unfold purgeWindow at h
  exact ⟨List.mem_of_mem_filter h, by simpa using List.of_mem_filter h⟩

theorem purgeWindow_sorted {now : Int} {ts : List Int} (h : ts.Sorted (· ≤ ·)) :
    (purgeWindow now ts).Sorted (· ≤ ·) := h.filter _

theorem purgeWindow_length_le (now : Int) (ts : List Int) :
    (purgeWindow now ts).length ≤ ts.length := List.length_filter_le _ _

theorem sorted_append_singleton {l : List Int} {x : Int}
    (hl : l.Sorted (· ≤ ·)) (hx : ∀ t ∈ l, t ≤ x) : (l ++ [x]).Sorted (· ≤ ·) :=
  List.pairwise_append.mpr ⟨hl, List.pairwise_singleton _ _, by simpa using hx⟩

/-- Claim C5: `_wait_for_rate_limit` maintains the window invariant — at
most `N = 35` recorded timestamps, all within the last `W = 30 s` of the
clock; it purges before recording, and when the purged window is full the
request is recorded exactly at `oldest + W + 100 ms` after a sleep and a
re-purge. -/
theorem c5_rate_limiter_invariant (ts : List Int) (now : Int) (w : List Int)
    (n : Int) (hsorted : ts.Sorted (· ≤ ·)) (hle : ∀ t ∈ ts, t ≤ now)
    (hlen : ts.length ≤ RATE_LIMIT_MAX_REQUESTS)
    (heq : waitForRateLimit ts now = (w, n)) :
    w.length ≤ RATE_LIMIT_MAX_REQUESTS ∧
    (∀ t ∈ w, n - t < RATE_LIMIT_WINDOW_MS) ∧
    w.Sorted (· ≤ ·) ∧
    (∀ t ∈ w, t ≤ n) ∧
    now ≤ n ∧
    (∀ oldest rest, purgeWindow now ts = oldest :: rest →
      RATE_LIMIT_MAX_REQUESTS ≤ (oldest :: rest).length →
      n = oldest + RATE_LIMIT_WINDOW_MS + 100) := by
  have hpurge_len : (purgeWindow now ts).length ≤ RATE_LIMIT_MAX_REQUESTS :=
    (purgeWindow_length_le now ts).trans hlen
  unfold waitForRateLimit at heq
  split at heq
  · rename_i hfull
    split at heq
    · rename_i hnil
      rw [hnil] at hfull
      exact absurd hfull (by decide)
    · rename_i oldest rest hcons
      have hmem : oldest ∈ purgeWindow now ts := by
        rw [hcons]
        exact List.mem_cons_self oldest rest
      obtain ⟨hmem_ts, hwin⟩ := mem_purgeWindow hmem
      have hwait : 0 < RATE_LIMIT_WINDOW_MS - (now - oldest) + 100 := by
        unfold RATE_LIMIT_WINDOW_MS at hwin ⊢
        omega
      unfold sleepAndRetry at heq
      rw [if_pos hwait] at heq
      injection heq with hw hn
      subst hw
      subst hn
      have hdrop : purgeWindow
          (now + (RATE_LIMIT_WINDOW_MS - (now - oldest) + 100)) (oldest :: rest) =
          purgeWindow (now + (RATE_LIMIT_WINDOW_MS - (now - oldest) + 100)) rest := by
        unfold purgeWindow
        rw [List.filter_cons_of_neg]
        simp only [decide_eq_true_eq]
        omega
      have hrest_len : rest.length + 1 ≤ RATE_LIMIT_MAX_REQUESTS := by
        have := hcons ▸ hpurge_len
        simpa using this
      have hrest_sorted : rest.Sorted (· ≤ ·) := by
        have hps : (purgeWindow now ts).Sorted (· ≤ ·) := purgeWindow_sorted hsorted
        rw [hcons] at hps
        exact (List.pairwise_cons.mp hps).2
      have hrest_le : ∀ t ∈ rest, t ≤ now := by
        intro t ht
        have : t ∈ purgeWindow now ts := by
          rw [hcons]
          exact List.mem_cons_of_mem _ ht
        exact hle t (mem_purgeWindow this).1
      have hnow2 : now ≤ now + (RATE_LIMIT_WINDOW_MS - (now - oldest) + 100) := by
        omega
      refine ⟨?_, ?_, ?_, ?_, hnow2, ?_⟩
      · rw [hdrop]
        have h1 := purgeWindow_length_le
          (now + (RATE_LIMIT_WINDOW_MS - (now - oldest) + 100)) rest
        simp only [List.length_append, List.length_cons, List.length_nil]
        omega
      · intro t ht
        rcases List.mem_append.mp ht with ht | ht
        · exact (mem_purgeWindow ht).2
        · simp only [List.mem_singleton] at ht
          subst ht
          unfold RATE_LIMIT_WINDOW_MS
          omega
      · apply sorted_append_singleton
        · rw [hdrop]
          exact purgeWindow_sorted hrest_sorted
        · intro t ht
          rw [hdrop] at ht
          exact (hrest_le t (mem_purgeWindow ht).1).trans hnow2
      · intro t ht
        rcases List.mem_append.mp ht with ht | ht
        · rw [hdrop] at ht
          exact (hrest_le t (mem_purgeWindow ht).1).trans hnow2
        · simp only [List.mem_singleton] at ht
          omega
      · intro oldest2 rest2 hcons2 _
        rw [hcons2] at hcons
        have h2 : oldest2 = oldest := (List.cons_eq_cons.mp hcons).1
        subst h2
        omega
  · rename_i hfull
    injection heq with hw hn
    subst hw
    subst hn
    refine ⟨?_, ?_, ?_, ?_, le_refl now, ?_⟩
    · simp only [List.length_append, List.length_cons, List.length_nil]
      omega
    · intro t ht
      rcases List.mem_append.mp ht with ht | ht
      · exact (mem_purgeWindow ht).2
      · simp only [List.mem_singleton] at ht
        subst ht
        unfold RATE_LIMIT_WINDOW_MS
        omega
    · exact sorted_append_singleton (purgeWindow_sorted hsorted)
        (fun t ht => hle t (mem_purgeWindow ht).1)
    · intro t ht
      rcases List.mem_append.mp ht with ht | ht
      · exact hle t (mem_purgeWindow ht).1
      · simp only [List.mem_singleton] at ht
        omega
    · intro oldest rest hcons hfull2
      rw [hcons] at hfull
      exact absurd hfull2 hfull

/-- Witness for C5: a near-full sorted window at a concrete clock. -/
theorem c5_witness :
    (waitForRateLimit [0, 20] 25).1.length ≤ RATE_LIMIT_MAX_REQUESTS ∧
    (∀ t ∈ (waitForRateLimit [0, 20] 25).1,
      (waitForRateLimit [0, 20] 25).2 - t < RATE_LIMIT_WINDOW_MS) := by
  have h := c5_rate_limiter_invariant [0, 20] 25 (waitForRateLimit [0, 20] 25).1
    (waitForRateLimit [0, 20] 25).2 (by decide) (by decide) (by decide) rfl
  exact ⟨h.1, h.2.1⟩

/-! ### Claim about the 429 retry policy -/

theorem verifyAux_requests_le (oracle : Nat → AttemptOutcome) (email : Str) :
    ∀ budget idx, (verifyAux oracle email budget idx).2.1 ≤ budget + 1 := by
  intro budget
  induction budget with
  | zero =>
    intro idx
    rw [verifyAux]
    cases oracle idx <;> simp
  | succ b ih =>
    intro idx
    rw [verifyAux]
    cases oracle idx with
    | rateLimited =>
      simp only
      have := ih (idx + 1)
      omega
    | ok d => simp
    | httpError s => simp
    | timeout => simp
    | failure msg => simp

theorem verifyAux_sleeps_shape (oracle : Nat → AttemptOutcome) (email : Str) :
    ∀ budget idx, budget ≤ MAX_RETRIES →
      ∃ k ≤ budget, (verifyAux oracle email budget idx).2.2 =
        (List.range k).map
          (fun i => BASE_RETRY_DELAY_MS * 2 ^ (MAX_RETRIES - budget + i)) := by
  intro budget
  induction budget with
  | zero =>
    intro idx _
    refine ⟨0, le_refl 0, ?_⟩
    rw [verifyAux]
    cases oracle idx <;> simp
  | succ b ih =>
    intro idx hb
    rw [verifyAux]
    cases oracle idx with
    | rateLimited =>
      obtain ⟨k, hk, hsl⟩ := ih (idx + 1) (Nat.le_of_succ_le hb)
      refine ⟨k + 1, by omega, ?_⟩
      simp only [hsl, List.range_succ_eq_map, List.map_cons, List.map_map]
      refine List.cons_eq_cons.mpr ⟨by simp, ?_⟩
      apply List.map_congr_left
      intro i _
      simp only [Function.comp_apply]
      have he : MAX_RETRIES - b + i = MAX_RETRIES - (b + 1) + (i + 1) := by omega
      rw [he]
    | ok d => exact ⟨0, by omega, by simp⟩
    | httpError s => exact ⟨0, by omega, by simp⟩
    | timeout => exact ⟨0, by omega, by simp⟩
    | failure msg => exact ⟨0, by omega, by simp⟩

theorem verifyAux_all429 (oracle : Nat → AttemptOutcome) (email : Str)
    (h : ∀ i, oracle i = AttemptOutcome.rateLimited) :
    ∀ budget idx, budget ≤ MAX_RETRIES →
      verifyAux oracle email budget idx =
        (rateLimitExhausted email, budget + 1,
         (List.range budget).map
           (fun i => BASE_RETRY_DELAY_MS * 2 ^ (MAX_RETRIES - budget + i))) := by
  intro budget
  induction budget with
  | zero =>
    intro idx _
    rw [verifyAux, h idx]
    simp
  | succ b ih =>
    intro idx hb
    rw [verifyAux, h idx]
    simp only [ih (idx + 1) (Nat.le_of_succ_le hb), List.range_succ_eq_map,
      List.map_cons, List.map_map, Prod.mk.injEq, true_and]
    refine List.cons_eq_cons.mpr ⟨by simp, ?_⟩
    apply List.map_congr_left
    intro i _
    simp only [Function.comp_apply]
    have he : MAX_RETRIES - b + i = MAX_RETRIES - (b + 1) + (i + 1) := by omega
    rw [he]

/-- Claim C6: for every email and attempt oracle, `verify` issues at most
`MAX_RETRIES = 2` additional attempts after the first (at most 3 HTTP
requests), the back-off sleeps performed are `31000 ms × 2^(attempt-1)`
in order, and when every attempt answers 429 it returns
`status = unknown`, `is_rate_limited = true` with the rate-limit-exceeded
reason instead of raising. -/
theorem c6_retry_policy :
    (∀ (oracle : Nat → AttemptOutcome) (email : Str),
      (verify oracle email).2.1 ≤ MAX_RETRIES + 1) ∧
    (∀ (oracle : Nat → AttemptOutcome) (email : Str),
      ∃ k ≤ MAX_RETRIES, (verify oracle email).2.2 =
        (List.range k).map (fun i => BASE_RETRY_DELAY_MS * 2 ^ i)) ∧
    (∀ (oracle : Nat → AttemptOutcome) (email : Str),
      (∀ i, oracle i = AttemptOutcome.rateLimited) →
      verify oracle email =
        (rateLimitExhausted email, MAX_RETRIES + 1,
         [BASE_RETRY_DELAY_MS, BASE_RETRY_DELAY_MS * 2])) := by
  refine ⟨?_, ?_, ?_⟩
  · intro oracle email
    exact verifyAux_requests_le oracle email MAX_RETRIES 0
  · intro oracle email
    obtain ⟨k, hk, hsl⟩ :=
      verifyAux_sleeps_shape oracle email MAX_RETRIES 0 (le_refl _)
    refine ⟨k, hk, ?_⟩
    rw [verify, hsl]
    apply List.map_congr_left
    intro i _
    have he : MAX_RETRIES - MAX_RETRIES + i = i := by omega
    rw [he]
  · intro oracle email h
    rw [verify, verifyAux_all429 oracle email h MAX_RETRIES 0 (le_refl _)]
    rfl

/-- Witness for C6: the all-429 oracle at a concrete email. -/
theorem c6_witness :
    verify (fun _ => AttemptOutcome.rateLimited) (("a@b.co").toList) =
      (rateLimitExhausted (("a@b.co").toList), 3, [31000, 62000]) :=
  (c6_retry_policy.2.2 (fun _ => AttemptOutcome.rateLimited) (("a@b.co").toList)
    (fun _ => rfl)).trans (by decide)

/-! ### Claim about the job status machine -/

theorem stampTimestamps_status (j : Job) (b : Bool) (s : JobStatus) :
    (stampTimestamps j b s).status = j.status := by
  unfold stampTimestamps
  split_ifs <;> rfl

theorem storeError_status (j : Job) (em : Option Str) :
    (storeError j em).status = j.status := by
  unfold storeError
  cases em with
  | none => rfl
  | some m =>
    by_cases hm : m = []
    · simp [hm]
    · simp [hm]

theorem storeResult_status (j : Job) (r : Bool) :
    (storeResult j r).status = j.status := by
  unfold storeResult
  split_ifs <;> rfl

theorem updateStatus_status (j : Job) (s : JobStatus) (em : Option Str)
    (r : Bool) : (updateStatus j s em r).status = s := by
  unfold updateStatus
  rw [storeResult_status, storeError_status, stampTimestamps_status]

/-- Claim C2 (amended): the repository does not guard transitions.
`update_status` assigns any requested status unconditionally — from any
state, terminal included — and `cancel` refuses only jobs already
`completed` or `cancelled`, moving every other job (including `failed`)
to `cancelled`. -/
theorem c2_status_transitions :
    (∀ (j : Job) (s : JobStatus) (em : Option Str) (r : Bool),
      (updateStatus j s em r).status = s) ∧
    (∀ j : Job, j.status = JobStatus.completed ∨ j.status = JobStatus.cancelled →
      repoCancel j = (j, false)) ∧
    (∀ j : Job, j.status ≠ JobStatus.completed → j.status ≠ JobStatus.cancelled →
      (repoCancel j).1.status = JobStatus.cancelled ∧ (repoCancel j).2 = true) := by
  refine ⟨updateStatus_status, ?_, ?_⟩
  · intro j hj
    unfold repoCancel
    rw [if_pos hj]
  · intro j h1 h2
    unfold repoCancel
    rw [if_neg (fun hc => hc.elim h1 h2)]
    exact ⟨rfl, rfl⟩

/-- Counterexample to C2 as stated: terminal states are not sticky —
`cancel` moves a `failed` job to `cancelled`, and `update_status` moves a
`completed` job back to `running`. -/
theorem c2_counterexample :
    jobFailed.status = JobStatus.failed ∧
    (repoCancel jobFailed).1.status = JobStatus.cancelled ∧
    (repoCancel jobFailed).2 = true ∧
    jobCompleted.status = JobStatus.completed ∧
    (updateStatus jobCompleted JobStatus.running none false).status =
      JobStatus.running := by
  refine ⟨rfl, ?_, ?_, rfl, ?_⟩ <;> decide

/-- Witness for C2 at concrete jobs. -/
theorem c2_witness :
    (updateStatus jobFailed JobStatus.queued none false).status =
      JobStatus.queued ∧
    repoCancel jobCompleted = (jobCompleted, false) ∧
    (repoCancel jobFailed).1.status = JobStatus.cancelled := by
  refine ⟨c2_status_transitions.1 jobFailed JobStatus.queued none false,
    c2_status_transitions.2.1 jobCompleted (Or.inl rfl),
    (c2_status_transitions.2.2 jobFailed (by decide) (by decide)).1⟩

/-! ### Claim about catch-all learning -/

theorem flushMaybe_fields (st : BatchState) :
    (flushMaybe st).catchAllDomains = st.catchAllDomains ∧
    (flushMaybe st).deadDomains = st.deadDomains ∧
    (flushMaybe st).verifiedLeads = st.verifiedLeads ∧
    (flushMaybe st).failed = st.failed ∧
    (flushMaybe st).processed = st.processed ∧
    (flushMaybe st).calls = st.calls ∧
    (flushMaybe st).callCount = st.callCount ∧
    (flushMaybe st).domainPatterns = st.domainPatterns := by
  unfold flushMaybe
  split_ifs <;> exact ⟨rfl, rfl, rfl, rfl, rfl, rfl, rfl, rfl⟩

theorem probeCandidates_calls_length (oracle : VendorOracle) (lead : LeadIn) :
    ∀ (l : List Str) (idx : Nat),
      (probeCandidates oracle lead l idx).2.2.length ≤ l.length := by
  intro l
  induction l with
  | nil =>
    intro idx
    rw [probeCandidates]
  | cons e rest ih =>
    intro idx
    rw [probeCandidates]
    split_ifs
    · simp
    · simp
    · simp
    · simp only [List.length_cons]
      exact Nat.succ_le_succ (ih (idx + 1))

theorem subset_addIfNew {α : Type} [DecidableEq α] (acc : List α) (b : α) :
    acc ⊆ addIfNew acc b := fun a ha => (mem_addIfNew acc b a).mpr (Or.inl ha)

theorem permsFor_catchAll_length (st : BatchState) (d : Str) (lead : LeadIn)
    (hd : d ∈ st.catchAllDomains) : (permsFor st d lead).length ≤ 1 := by
  unfold permsFor
  rw [if_pos hd]
  exact List.length_take_le _ _

theorem countFail_catchAllDomains (st : BatchState) :
    (countFail st).catchAllDomains = st.catchAllDomains := by
  unfold countFail
  rw [(flushMaybe_fields _).1]

theorem countFail_calls (st : BatchState) : (countFail st).calls = st.calls := by
  unfold countFail
  rw [(flushMaybe_fields _).2.2.2.2.2.1]

/-- Claim C7: a `catch_all` verdict records the lead as not verified,
increments `failed`, and adds the domain to the run's catch-all set;
any lead probed while its domain is in that set has its candidate list
truncated to length 1, so at most one vendor call is issued for it; and
the catch-all set only grows. -/
theorem c7_catch_all_handling (oracle : VendorOracle) (st : BatchState)
    (d : Str) (lead : LeadIn) :
    (∀ n es, d ∉ st.deadDomains → basePerms lead d ≠ [] →
      probeCandidates oracle lead (permsFor st d lead) st.callCount =
        (ProbeOutcome.catchAllHit, n, es) →
      (processLead oracle st d lead).catchAllDomains =
        addIfNew st.catchAllDomains d ∧
      (processLead oracle st d lead).verifiedLeads = st.verifiedLeads ∧
      (processLead oracle st d lead).failed = st.failed + 1) ∧
    (d ∈ st.catchAllDomains →
      (permsFor st d lead).length ≤ 1 ∧
      (processLead oracle st d lead).calls.length ≤ st.calls.length + 1) ∧
    st.catchAllDomains ⊆ (processLead oracle st d lead).catchAllDomains := by
  refine ⟨?_, ?_, ?_⟩
  · intro n es hd hb hprobe
    have heq : processLead oracle st d lead =
        flushMaybe (applyProbe st d lead (ProbeOutcome.catchAllHit, n, es)) := by
      unfold processLead
      rw [if_neg hd, if_neg hb, hprobe]
    rw [heq]
    have hf := flushMaybe_fields
      (applyProbe st d lead (ProbeOutcome.catchAllHit, n, es))
    rw [hf.1, hf.2.2.1, hf.2.2.2.1]
    exact ⟨rfl, rfl, rfl⟩
  · intro hd
    refine ⟨permsFor_catchAll_length st d lead hd, ?_⟩
    unfold processLead
    split_ifs with h1 h2
    · rw [countFail_calls]
      omega
    · rw [countFail_calls]
      omega
    · rw [(flushMaybe_fields _).2.2.2.2.2.1]
      have hlen := probeCandidates_calls_length oracle lead
        (permsFor st d lead) st.callCount
      have hperm := permsFor_catchAll_length st d lead hd
      cases hpr : (probeCandidates oracle lead (permsFor st d lead)
          st.callCount).1 <;>
        simp only [applyProbe, hpr, List.length_append] <;> omega
  · unfold processLead
    split_ifs with h1 h2
    · rw [countFail_catchAllDomains]
      exact fun a ha => ha
    · rw [countFail_catchAllDomains]
      exact fun a ha => ha
    · rw [(flushMaybe_fields _).1]
      cases hpr : (probeCandidates oracle lead (permsFor st d lead)
          st.callCount).1 <;>
        simp only [applyProbe, hpr]
      · exact fun a ha => ha
      · exact subset_addIfNew _ _
      · exact fun a ha => ha
      · exact fun a ha => ha

/-- Witness for C7: a concrete catch-all hit and a concrete truncated
probe. -/
theorem c7_witness :
    (processLead oracleCatchAll initialBatchState (("example.com").toList)
        adaLead).catchAllDomains = [("example.com").toList] ∧
    (processLead oracleCatchAll initialBatchState (("example.com").toList)
        adaLead).failed = 1 ∧
    (permsFor stCatch (("example.com").toList) adaLead).length ≤ 1 ∧
    (processLead oracleCatchAll stCatch (("example.com").toList)
        adaLead).calls.length ≤ 1 := by
  have h1 := (c7_catch_all_handling oracleCatchAll initialBatchState
    (("example.com").toList) adaLead).1 1
    [("ada.lovelace@example.com").toList] (by decide) (by decide) (by decide)
  have h2 := (c7_catch_all_handling oracleCatchAll stCatch
    (("example.com").toList) adaLead).2.1 (by decide)
  refine ⟨h1.1.trans (by decide), h1.2.2.trans (by decide), h2.1, ?_⟩
  have h3 := h2.2
  simpa using h3

/-! ### Claim about the progress counters -/

theorem commitsOK_extend {p f p2 f2 : Nat} {commits : List (Nat × Nat)}
    (h : CommitsOK p f commits) (hp : p ≤ p2) (hf : f ≤ f2) :
    CommitsOK p2 f2 commits :=
  ⟨fun c hc => ⟨(h.1 c hc).1, (h.1 c hc).2.1.trans hp, (h.1 c hc).2.2.trans hf⟩,
   h.2⟩

theorem commitsOK_append {p f : Nat} {commits : List (Nat × Nat)}
    (h : CommitsOK p f commits) (hfp : f ≤ p) :
    CommitsOK p f (commits ++ [(p, f)]) := by
  constructor
  · intro c hc
    rcases List.mem_append.mp hc with hc | hc
    · exact h.1 c hc
    · simp only [List.mem_singleton] at hc
      subst hc
      exact ⟨hfp, le_refl p, le_refl f⟩
  · rw [CommitsMono, List.chain'_append]
    refine ⟨h.2, List.chain'_singleton _, ?_⟩
    intro x hx y hy
    simp only [List.head?_cons, Option.mem_some_iff] at hy
    subst hy
    have hmem := List.mem_of_mem_getLast? hx
    exact ⟨(h.1 x hmem).2.1, (h.1 x hmem).2.2⟩

theorem flushMaybe_commits (st : BatchState) :
    (flushMaybe st).commits = st.commits ∨
    (flushMaybe st).commits = st.commits ++ [(st.processed, st.failed)] := by
  unfold flushMaybe
  split_ifs
  · right
    rfl
  · left
    rfl

theorem countFail_counters (st : BatchState) :
    (countFail st).processed = st.processed + 1 ∧
    (countFail st).failed = st.failed + 1 ∧
    ((countFail st).commits = st.commits ∨
     (countFail st).commits = st.commits ++ [(st.processed + 1, st.failed + 1)]) := by
  refine ⟨?_, ?_, ?_⟩
  · unfold countFail
    rw [(flushMaybe_fields _).2.2.2.2.1]
  · unfold countFail
    rw [(flushMaybe_fields _).2.2.2.1]
  · unfold countFail
    exact flushMaybe_commits
      { st with failed := st.failed + 1, processed := st.processed + 1 }

theorem applyProbe_counters (st : BatchState) (d : Str) (lead : LeadIn)
    (pr : ProbeOutcome × Nat × List Str) :
    (applyProbe st d lead pr).processed = st.processed + 1 ∧
    ((applyProbe st d lead pr).failed = st.failed ∨
     (applyProbe st d lead pr).failed = st.failed + 1) ∧
    (applyProbe st d lead pr).commits = st.commits := by
  cases hpr : pr.1 <;> simp [applyProbe, hpr]

theorem processLead_counters (oracle : VendorOracle) (st : BatchState)
    (d : Str) (lead : LeadIn) :
    (processLead oracle st d lead).processed = st.processed + 1 ∧
    ((processLead oracle st d lead).failed = st.failed ∨
     (processLead oracle st d lead).failed = st.failed + 1) ∧
    ((processLead oracle st d lead).commits = st.commits ∨
     (processLead oracle st d lead).commits = st.commits ++
       [((processLead oracle st d lead).processed,
         (processLead oracle st d lead).failed)]) := by
  unfold processLead
  split_ifs with h1 h2
  · obtain ⟨ha, hb, hc⟩ := countFail_counters st
    exact ⟨ha, Or.inr hb, by rw [ha, hb]; exact hc⟩
  · obtain ⟨ha, hb, hc⟩ := countFail_counters st
    exact ⟨ha, Or.inr hb, by rw [ha, hb]; exact hc⟩
  · have hap := applyProbe_counters st d lead
      (probeCandidates oracle lead (permsFor st d lead) st.callCount)
    have hff := flushMaybe_fields
      (applyProbe st d lead
        (probeCandidates oracle lead (permsFor st d lead) st.callCount))
    have hcm := flushMaybe_commits
      (applyProbe st d lead
        (probeCandidates oracle lead (permsFor st d lead) st.callCount))
    refine ⟨?_, ?_, ?_⟩
    · rw [hff.2.2.2.2.1, hap.1]
    · rw [hff.2.2.2.1]
      exact hap.2.1
    · rw [hff.2.2.2.2.1, hff.2.2.2.1]
      rw [hap.2.2] at hcm
      exact hcm

theorem processLead_inv (oracle : VendorOracle) (st : BatchState) (d : Str)
    (lead : LeadIn) (h : LeadsInv st) : LeadsInv (processLead oracle st d lead) := by
  obtain ⟨hp, hff, hcm⟩ := processLead_counters oracle st d lead
  obtain ⟨hfp, hok⟩ := h
  have hple : st.processed ≤ (processLead oracle st d lead).processed := by omega
  have hfle : st.failed ≤ (processLead oracle st d lead).failed := by
    rcases hff with h2 | h2 <;> omega
  have hfp2 : (processLead oracle st d lead).failed ≤
      (processLead oracle st d lead).processed := by
    rcases hff with h2 | h2 <;> omega
  refine ⟨hfp2, ?_⟩
  rcases hcm with h2 | h2
  · rw [h2]
    exact commitsOK_extend hok hple hfle
  · rw [h2]
    exact commitsOK_append (commitsOK_extend hok hple hfle) hfp2

theorem leadsFold_inv (oracle : VendorOracle) (pairs : List (Str × LeadIn)) :
    ∀ st, LeadsInv st → LeadsInv (leadsFold oracle pairs st) := by
  induction pairs with
  | nil => exact fun st h => h
  | cons p ps ih =>
    intro st h
    exact ih (processLead oracle st p.1 p.2) (processLead_inv oracle st p.1 p.2 h)

theorem leadsFold_processed (oracle : VendorOracle) (pairs : List (Str × LeadIn)) :
    ∀ st, (leadsFold oracle pairs st).processed = st.processed + pairs.length := by
  induction pairs with
  | nil => intro st; rfl
  | cons p ps ih =>
    intro st
    have h1 : leadsFold oracle (p :: ps) st =
        leadsFold oracle ps (processLead oracle st p.1 p.2) := rfl
    rw [h1, ih, (processLead_counters oracle st p.1 p.2).1]
    simp only [List.length_cons]
    omega

theorem nodup_firstOccur (xs : List Str) : (firstOccur xs).Nodup :=
  foldl_addIfNew_nodup xs List.nodup_nil

theorem mem_firstOccur (xs : List Str) (a : Str) : a ∈ firstOccur xs ↔ a ∈ xs := by
  unfold firstOccur
  rw [mem_foldl_addIfNew]
  simp

theorem length_flatMap_filter :
    ∀ (keys : List Str) (xs : List (Str × LeadIn)), keys.Nodup →
      (∀ x ∈ xs, x.1 ∈ keys) →
      (keys.flatMap (fun d => xs.filter (fun p => p.1 = d))).length = xs.length := by
  intro keys
  induction keys with
  | nil =>
    intro xs _ hcov
    cases xs with
    | nil => rfl
    | cons x xs =>
      exact absurd (hcov x (List.mem_cons_self x xs)) (List.not_mem_nil _)
  | cons d rest ih =>
    intro xs hnd hcov
    have hd_notin : d ∉ rest := (List.nodup_cons.mp hnd).1
    have hrest_nd : rest.Nodup := (List.nodup_cons.mp hnd).2
    have hrest : rest.flatMap (fun d2 => xs.filter (fun p => p.1 = d2)) =
        rest.flatMap (fun d2 =>
          (xs.filter (fun p => !decide (p.1 = d))).filter (fun p => p.1 = d2)) := by
      have hmap : rest.map (fun d2 => xs.filter (fun p => p.1 = d2)) =
          rest.map (fun d2 =>
            (xs.filter (fun p => !decide (p.1 = d))).filter (fun p => p.1 = d2)) := by
        apply List.map_congr_left
        intro d2 hd2
        rw [List.filter_filter]
        apply List.filter_congr
        intro x _
        by_cases hx : x.1 = d2
        · have hd2d : ¬(d2 = d) := fun hc => hd_notin (hc ▸ hd2)
          simp [hx, hd2d]
        · simp [hx]
      rw [List.flatMap, List.flatMap, hmap]
    have hcov2 : ∀ x ∈ xs.filter (fun p => !decide (p.1 = d)), x.1 ∈ rest := by
      intro x hx
      have hxs := List.mem_of_mem_filter hx
      have hneq : ¬(x.1 = d) := by
        have := List.of_mem_filter hx
        simpa using this
      rcases List.mem_cons.mp (hcov x hxs) with hc | hc
      · exact absurd hc hneq
      · exact hc
    have hsplit : xs.length = (xs.filter (fun p => decide (p.1 = d))).length +
        (xs.filter (fun p => !decide (p.1 = d))).length :=
      List.length_eq_length_filter_add _
    have hfe : xs.filter (fun p => decide (p.1 = d)) =
        xs.filter (fun p => p.1 = d) := rfl
    rw [List.flatMap_cons, List.length_append, hrest,
      ih (xs.filter (fun p => !decide (p.1 = d))) hrest_nd hcov2]
    rw [hfe] at hsplit
    omega

theorem groupedLeads_length (leads : List LeadIn) :
    (groupedLeads leads).length = leads.length := by
  unfold groupedLeads
  rw [length_flatMap_filter _ _ (nodup_firstOccur _) ?_]
  · unfold taggedLeads
    rw [List.length_map]
  · intro x hx
    rw [mem_firstOccur]
    exact List.mem_map_of_mem Prod.fst hx

theorem processEmail_counters (oracle : VendorOracle) (st : EmailBatchState)
    (email : Str) :
    ((processEmail oracle st email).processed +
        (processEmail oracle st email).failed = st.processed + st.failed + 1) ∧
    st.failed ≤ (processEmail oracle st email).failed ∧
    (processEmail oracle st email).failed ≤ st.failed + 1 ∧
    ((processEmail oracle st email).commits = st.commits ∨
     (processEmail oracle st email).commits = st.commits ++
       [((processEmail oracle st email).processed +
           (processEmail oracle st email).failed,
         (processEmail oracle st email).failed)]) := by
  unfold processEmail flushEmailsMaybe tallyResult recordResult
  split_ifs <;> simp_all <;> omega

theorem processEmail_inv (oracle : VendorOracle) (st : EmailBatchState)
    (email : Str) (h : EmailsInv st) : EmailsInv (processEmail oracle st email) := by
  obtain ⟨hdone, hf1, hf2, hcm⟩ := processEmail_counters oracle st email
  have hext : CommitsOK
      ((processEmail oracle st email).processed +
        (processEmail oracle st email).failed)
      (processEmail oracle st email).failed st.commits :=
    commitsOK_extend h (by omega) hf1
  rcases hcm with h2 | h2
  · unfold EmailsInv
    rw [h2]
    exact hext
  · unfold EmailsInv
    rw [h2]
    exact commitsOK_append hext (by omega)

theorem emailsFold_inv (oracle : VendorOracle) (emails : List Str) :
    ∀ st, EmailsInv st → EmailsInv (emails.foldl (processEmail oracle) st) := by
  induction emails with
  | nil => exact fun st h => h
  | cons e es ih =>
    intro st h
    exact ih (processEmail oracle st e) (processEmail_inv oracle st e h)

theorem emailsFold_done (oracle : VendorOracle) (emails : List Str) :
    ∀ st, (emails.foldl (processEmail oracle) st).processed +
        (emails.foldl (processEmail oracle) st).failed =
      st.processed + st.failed + emails.length := by
  induction emails with
  | nil => intro st; rfl
  | cons e es ih =>
    intro st
    have h1 : (e :: es).foldl (processEmail oracle) st =
        es.foldl (processEmail oracle) (processEmail oracle st e) := rfl
    rw [h1, ih, (processEmail_counters oracle st e).1]
    simp only [List.length_cons]
    omega

/-- Claim C1 (amended): for both verification stages, after every flush
and after the final update the stored counters satisfy
`failed_items ≤ processed_items ≤ total_items`, and both counters are
monotonically non-decreasing across successive commits. -/
theorem c1_progress_commits :
    (∀ (oracle : VendorOracle) (leads : List LeadIn) (url : Option Str),
      (∀ c ∈ (runLeadsBatch oracle leads url).finalState.commits,
        c.2 ≤ c.1 ∧ c.1 ≤ leads.length) ∧
      CommitsMono (runLeadsBatch oracle leads url).finalState.commits) ∧
    (∀ (oracle : VendorOracle) (emails : List Str) (url : Option Str),
      (∀ c ∈ (runEmailsBatch oracle emails url).finalState.commits,
        c.2 ≤ c.1 ∧ c.1 ≤ emails.length) ∧
      CommitsMono (runEmailsBatch oracle emails url).finalState.commits) := by
  constructor
  · intro oracle leads url
    unfold runLeadsBatch
    split_ifs with hleads
    · constructor
      · intro c hc
        exact absurd hc (List.not_mem_nil c)
      · exact List.chain'_nil
    · have hinv := leadsFold_inv oracle (groupedLeads leads) initialBatchState
        ⟨le_refl 0, fun c hc => absurd hc (List.not_mem_nil c), List.chain'_nil⟩
      have hproc : (leadsFold oracle (groupedLeads leads)
          initialBatchState).processed = leads.length := by
        rw [leadsFold_processed, groupedLeads_length]
        simp [initialBatchState]
      have hfinal := commitsOK_append hinv.2 hinv.1
      unfold leadsFinalState withFinalCommit
      constructor
      · intro c hc
        have hb := hfinal.1 c hc
        rw [hproc] at hb
        exact ⟨hb.1, hb.2.1⟩
      · exact hfinal.2
  · intro oracle emails url
    unfold runEmailsBatch
    split_ifs with hemails
    · constructor
      · intro c hc
        exact absurd hc (List.not_mem_nil c)
      · exact List.chain'_nil
    · have hinv := emailsFold_inv oracle emails initialEmailState
        ⟨fun c hc => absurd hc (List.not_mem_nil c), List.chain'_nil⟩
      have hdone : (emails.foldl (processEmail oracle)
          initialEmailState).processed +
          (emails.foldl (processEmail oracle) initialEmailState).failed =
          emails.length := by
        rw [emailsFold_done]
        simp [initialEmailState]
      have hfinal := commitsOK_append hinv (by omega)
      unfold emailsFinalState withFinalEmailCommit
      constructor
      · intro c hc
        have hb := hfinal.1 c hc
        rw [hdone] at hb
        exact ⟨hb.1, hb.2.1⟩
      · exact hfinal.2

/-- Counterexample to C1 as stated: one lead whose candidates all verify
`unknown` — the final update stores `processed_items = 1` (the lead was
handled) and `failed_items = 1`, so
`processed_items + failed_items = 2 > total_items = 1`. -/
theorem c1_counterexample :
    (runLeadsBatch oracleUnknown [adaLead] none).finalState.commits = [(1, 1)] ∧
    ¬((1 : Nat) + 1 ≤ ([adaLead] : List LeadIn).length) := by
  constructor
  · decide
  · decide

/-- Witness for C1 at the same concrete run. -/
theorem c1_witness :
    ((1, 1) ∈ (runLeadsBatch oracleUnknown [adaLead] none).finalState.commits) ∧
    (1 : Nat) ≤ 1 ∧ 1 ≤ ([adaLead] : List LeadIn).length := by
  have h := (c1_progress_commits.1 oracleUnknown [adaLead] none).1 (1, 1) (by decide)
  exact ⟨by decide, h.1, h.2⟩

/-! ### Claim about cancellation -/

theorem updateProgress_status (j : Job) (p f : Option Nat) :
    (updateProgress j p f).status = j.status := rfl

/-- The stage state is computed without ever reading the job row: the
job-threaded fold projects onto the pure fold. -/
theorem cancelFold_snd (oracle : VendorOracle) (cancelAfter : Option Nat) :
    ∀ (pairs : List (Nat × (Str × LeadIn))) (acc : Job × BatchState),
      (cancelFold oracle cancelAfter pairs acc).2 =
        leadsFold oracle (pairs.map Prod.snd) acc.2 := by
  intro pairs
  induction pairs with
  | nil => intro acc; rfl
  | cons p ps ih =>
    intro acc
    have h1 : cancelFold oracle cancelAfter (p :: ps) acc =
        cancelFold oracle cancelAfter ps (cancelStep oracle cancelAfter acc p) := rfl
    rw [h1, ih]
    rfl

/-- Claim C3 (amended): the bulk-verify-leads task never polls
`job.status`; whenever — and whether — an external cancel lands at an
item boundary, the stage computes the same state (same vendor calls),
its final `update_status` write leaves the job `completed`, and the
webhook fires exactly when a webhook URL is configured. -/
theorem c3_cancellation_ignored (oracle : VendorOracle) (leads : List LeadIn)
    (url : Option Str) (cancelAfter : Option Nat) (j : Job) (h : leads ≠ []) :
    (runLeadsBatchWithCancel oracle leads url cancelAfter j).1.status =
      JobStatus.completed ∧
    (runLeadsBatchWithCancel oracle leads url cancelAfter j).2.1 =
      leadsFinalState oracle leads ∧
    (runLeadsBatchWithCancel oracle leads url cancelAfter j).2.2 = url.isSome := by
  unfold runLeadsBatchWithCancel
  rw [if_neg h]
  refine ⟨?_, ?_, rfl⟩
  · rw [updateProgress_status, updateStatus_status]
  · rw [cancelFold_snd, List.enum_map_snd]
    rfl

/-- Counterexample to C3 as stated: the job IS cancelled at the item
boundary after lead 1 (the repository write succeeds), yet the stage
keeps dispatching vendor calls for lead 2 (16 calls in total, 8 after
the boundary), the final state is `completed`, not `cancelled`, and the
webhook fires. -/
theorem c3_counterexample :
    (cancelFold oracleUnknown (some 1)
        ((groupedLeads [adaLead, alanLead]).enum.take 1)
        (updateStatus pendingJob JobStatus.running none false,
         initialBatchState)).1.status = JobStatus.cancelled ∧
    (runLeadsBatchWithCancel oracleUnknown [adaLead, alanLead]
        (some (("https://hooks.example/cb").toList)) (some 1)
        pendingJob).1.status = JobStatus.completed ∧
    (runLeadsBatchWithCancel oracleUnknown [adaLead, alanLead]
        (some (("https://hooks.example/cb").toList)) (some 1)
        pendingJob).2.1.calls.length = 16 ∧
    (runLeadsBatchWithCancel oracleUnknown [adaLead, alanLead]
        (some (("https://hooks.example/cb").toList)) (some 1)
        pendingJob).2.2 = true := by
  refine ⟨?_, ?_, ?_, ?_⟩ <;> decide

/-- Witness for C3 at a concrete one-lead run. -/
theorem c3_witness :
    (runLeadsBatchWithCancel oracleUnknown [adaLead] none none
        pendingJob).1.status = JobStatus.completed :=
  (c3_cancellation_ignored oracleUnknown [adaLead] none none pendingJob
    (by decide)).1
